import Mathlib

/-!
Shallow embedding of the terminfo library (parameterized-capability
expansion engine and binary database parser) together with theorems
checking the specification's claims against it.

Bytes are modelled as `Nat` (values 0..255), machine integers `i32` as
`Int` with explicit two's-complement wrapping, fallible operations as
`Except`.  Rust panics (division by zero, out-of-bounds slice index) are
modelled as an explicit `panic` outcome distinct from returned errors.
-/

namespace TerminfoLib

/-! ## Two's-complement 32-bit arithmetic helpers -/

/-- Wrap an integer to the `i32` range, as Rust release-mode arithmetic does. -/
def wrap32 (n : Int) : Int :=
  (n + 2147483648).emod 4294967296 - 2147483648

/-- Bit pattern of an `i32` value as an unsigned 32-bit natural. -/
def toN32 (x : Int) : Nat :=
  (x.emod 4294967296).toNat

/-- Reinterpret an unsigned 32-bit bit pattern as a signed `i32` value. -/
def ofN32 (n : Nat) : Int :=
  if n < 2147483648 then (n : Int) else (n : Int) - 4294967296

/-- Bytes of an ASCII string, for writing byte-string literals readably. -/
def strBytes (s : String) : List Nat :=
  s.toList.map Char.toNat

/-! ## Decimal / octal / hexadecimal digit rendering -/

/-- Digit accumulator; `fuel` bounds the recursion. -/
def digitsAux (base : Nat) : Nat → Nat → List Nat → List Nat
  | 0, _, acc => acc
  | fuel + 1, n, acc =>
    if n = 0 then acc else digitsAux base fuel (n / base) (n % base :: acc)

/-- Digits of `n` in the given base, most significant first (`[0]` for zero). -/
def natDigits (base n : Nat) : List Nat :=
  if n = 0 then [0] else digitsAux base n n []

def decBytes (n : Nat) : List Nat := (natDigits 10 n).map (· + 48)

def octBytes (n : Nat) : List Nat := (natDigits 8 n).map (· + 48)

def hexBytes (upper : Bool) (n : Nat) : List Nat :=
  (natDigits 16 n).map fun d =>
    if d < 10 then d + 48 else d + (if upper then 55 else 87)

/-- Left zero-padding to a minimum total length `w`. -/
def zeroPad (l : List Nat) (w : Nat) : List Nat :=
  List.replicate (w - l.length) 48 ++ l

/-! ## Expander data model (src/expand.rs) -/

/-- Types of parameters a capability can use (`Parameter` in the source). -/
inductive Parameter where
  | num (n : Int)
  | str (s : List Nat)
deriving DecidableEq, Repr

/-- Errors reported when expanding a string (`expand::Error`). -/
inductive ExpandError where
  | stackUnderflow (c : Nat)
  | typeMismatch (c : Nat)
  | unrecognizedFormatOption (c : Nat)
  | invalidVariableName (c : Nat)
  | invalidParameterIndex (c : Nat)
  | malformedCharacterConstant
  | integerConstantOverflow
  | malformedIntegerConstant
  | formatWidthOverflow
  | formatPrecisionOverflow
  | formatTypeMismatch
deriving DecidableEq, Repr

/-- Outcome of a failing expansion: a returned error, or a Rust panic
(division by zero / division overflow, which `expand.rs` does not guard). -/
inductive Failure where
  | err (e : ExpandError)
  | panic
deriving DecidableEq, Repr

/-- Printf-style format state (`FormatState` in the source). -/
inductive FormatState where
  | Flags
  | Width
  | Precision
deriving DecidableEq, Repr

/-- Printf-style flags (`Flags` in the source); `width`/`precision` are `u16`
in Rust, kept as `Nat` with the checked-overflow bound 65535 made explicit. -/
structure Flags where
  width : Nat
  precision : Option Nat
  alternate : Bool
  left : Bool
  sign : Bool
  space : Bool
deriving DecidableEq, Repr

def defaultFlags : Flags :=
  { width := 0, precision := none, alternate := false,
    left := false, sign := false, space := false }

/-- Interpreter states (`States` in the source). -/
inductive States where
  | Nothing
  | Delay
  | Percent
  | SetVar
  | GetVar
  | PushParam
  | CharConstant
  | CharClose
  | IntConstant (i : Int)
  | FormatPattern (flags : Flags) (fstate : FormatState)
  | SeekIfElse (level : Nat)
  | SeekIfElsePercent (level : Nat)
  | SeekIfEnd (level : Nat)
  | SeekIfEndPercent (level : Nat)
deriving DecidableEq, Repr

/-! ## The `format` helper (src/expand.rs `fn format`) -/

/-- Decimal rendering for `%d` with flags, following the Rust `format!`
calls: precision acts as a zero-pad width, a sign or leading space is
counted inside the padded width exactly as `{:+0W}` does. -/
def formatD (d : Int) (flags : Flags) : List Nat :=
  let ds := decBytes d.natAbs
  match flags.precision with
  | some p =>
    if flags.sign then
      (if d < 0 then 45 else 43) :: (List.replicate ((p + 1) - (ds.length + 1)) 48 ++ ds)
    else if d < 0 then
      45 :: (List.replicate ((p + 1) - (ds.length + 1)) 48 ++ ds)
    else if flags.space then
      32 :: zeroPad ds p
    else
      zeroPad ds p
  | none =>
    if flags.sign then (if d < 0 then 45 else 43) :: ds
    else if d < 0 then 45 :: ds
    else if flags.space then 32 :: ds
    else ds

/-- Octal rendering for `%o`: the bit pattern of `d`, alternate form adds a
leading `0` that counts against the precision (`saturating_sub(1)`). -/
def formatO (d : Int) (flags : Flags) : List Nat :=
  let ds := octBytes (toN32 d)
  match flags.precision with
  | some p => if flags.alternate then 48 :: zeroPad ds (p - 1) else zeroPad ds p
  | none => if flags.alternate then 48 :: ds else ds

/-- Hexadecimal rendering for `%x`/`%X`: the bit pattern of `d`, with a
`0x`/`0X` prefix in alternate form except when the value is zero. -/
def formatX (d : Int) (upper : Bool) (flags : Flags) : List Nat :=
  let ds := hexBytes upper (toN32 d)
  let pre := if upper then [48, 88] else [48, 120]
  match flags.precision with
  | some p =>
    if flags.alternate ∧ d ≠ 0 then pre ++ zeroPad ds p else zeroPad ds p
  | none =>
    if flags.alternate ∧ d ≠ 0 then pre ++ ds else ds

/-- Final space padding to the field width (`flags.width`). -/
def widthPad (flags : Flags) (s : List Nat) : List Nat :=
  if s.length < flags.width then
    if flags.left then s ++ List.replicate (flags.width - s.length) 32
    else List.replicate (flags.width - s.length) 32 ++ s
  else s

/-- The `format` function of src/expand.rs. `op` is the conversion byte. -/
def format (val : Parameter) (op : Nat) (flags : Flags) :
    Except ExpandError (List Nat) :=
  match val with
  | .num d =>
    if op = 100 then .ok (widthPad flags (formatD d flags))
    else if op = 111 then .ok (widthPad flags (formatO d flags))
    else if op = 120 then .ok (widthPad flags (formatX d false flags))
    else if op = 88 then .ok (widthPad flags (formatX d true flags))
    else .error .formatTypeMismatch
  | .str s =>
    if op = 115 then
      .ok (widthPad flags
        (match flags.precision with
         | some p => if p < s.length then s.take p else s
         | none => s))
    else .error .formatTypeMismatch

/-! ## The expansion interpreter -/

/-- Full interpreter configuration: the local state of one `expand` call plus
the context's static variables (the `ExpandContext` field). -/
structure Config where
  state : States
  output : List Nat
  stack : List Parameter
  dynVars : List Parameter
  mparams : List Parameter
  incremented : Bool
  statics : List Parameter
deriving DecidableEq, Repr

/-- Binary arithmetic dispatch for `%+ %- %* %/ %| %& %^ %m`; `x` is the
deeper stack element, `y` the top. Division and modulo by zero, and the
`i32::MIN / -1` overflow, panic in Rust (no guard in the source). -/
def arith (c : Nat) (x y : Int) : Except Failure Int :=
  if c = 43 then .ok (wrap32 (x + y))
  else if c = 45 then .ok (wrap32 (x - y))
  else if c = 42 then .ok (wrap32 (x * y))
  else if c = 47 then
    if y = 0 ∨ (x = -2147483648 ∧ y = -1) then .error .panic else .ok (x.tdiv y)
  else if c = 124 then .ok (ofN32 (toN32 x ||| toN32 y))
  else if c = 38 then .ok (ofN32 (toN32 x &&& toN32 y))
  else if c = 94 then .ok (ofN32 (toN32 x ^^^ toN32 y))
  else
    if y = 0 ∨ (x = -2147483648 ∧ y = -1) then .error .panic else .ok (x.tmod y)

/-- Comparison / logical dispatch for `%= %< %> %A %O`, pushing 1 or 0. -/
def cmpOp (c : Nat) (x y : Int) : Int :=
  if c = 61 then (if x = y then 1 else 0)
  else if c = 60 then (if x < y then 1 else 0)
  else if c = 62 then (if y < x then 1 else 0)
  else if c = 65 then (if 0 < x ∧ 0 < y then 1 else 0)
  else (if 0 < x ∨ 0 < y then 1 else 0)

/-- Handler for the `States::Percent` arm of the interpreter, one match arm
per operator byte as in the Rust `match cur`. -/
def stepPercent (cfg : Config) (c : Nat) : Except Failure Config :=
  match c with
  | 37 => .ok { cfg with output := cfg.output ++ [37], state := .Nothing }
  | 99 =>
    (match cfg.stack with
     | .num n :: s =>
       .ok { cfg with stack := s,
                      output := cfg.output ++ [if n = 0 then 128 else (n.emod 256).toNat] }
     | .str _ :: _ => .error (.err (.typeMismatch 99))
     | [] => .error (.err (.stackUnderflow 99)))
  | 112 => .ok { cfg with state := .PushParam }
  | 80 => .ok { cfg with state := .SetVar }
  | 103 => .ok { cfg with state := .GetVar }
  | 39 => .ok { cfg with state := .CharConstant }
  | 123 => .ok { cfg with state := .IntConstant 0 }
  | 108 =>
    (match cfg.stack with
     | .str s :: rest => .ok { cfg with stack := .num (wrap32 s.length) :: rest }
     | .num _ :: _ => .error (.err (.typeMismatch 108))
     | [] => .error (.err (.stackUnderflow 108)))
  | 43 | 45 | 42 | 47 | 124 | 38 | 94 | 109 =>
    (match cfg.stack with
     | .num y :: .num x :: rest =>
       (match arith c x y with
        | .ok r => .ok { cfg with stack := .num r :: rest }
        | .error f => .error f)
     | _ :: _ :: _ => .error (.err (.typeMismatch c))
     | _ => .error (.err (.stackUnderflow c)))
  | 61 | 62 | 60 | 65 | 79 =>
    (match cfg.stack with
     | .num y :: .num x :: rest =>
       .ok { cfg with stack := .num (cmpOp c x y) :: rest }
     | _ :: _ :: _ => .error (.err (.typeMismatch c))
     | _ => .error (.err (.stackUnderflow c)))
  | 33 | 126 =>
    (match cfg.stack with
     | .num x :: rest =>
       let r : Int := if c = 33 then (if 0 < x then 0 else 1) else wrap32 (-x - 1)
       .ok { cfg with stack := .num r :: rest }
     | .str _ :: _ => .error (.err (.typeMismatch c))
     | [] => .error (.err (.stackUnderflow c)))
  | 105 =>
    (match cfg.mparams with
     | .num x :: .num y :: rest =>
       if cfg.incremented then .ok cfg
       else .ok { cfg with mparams := .num (wrap32 (x + 1)) :: .num (wrap32 (y + 1)) :: rest,
                           incremented := true }
     | _ => .error (.err (.typeMismatch 105)))
  | 100 | 111 | 120 | 88 | 115 =>
    (match cfg.stack with
     | arg :: rest =>
       (match format arg c defaultFlags with
        | .ok bs => .ok { cfg with stack := rest, output := cfg.output ++ bs }
        | .error e => .error (.err e))
     | [] => .error (.err (.stackUnderflow c)))
  | 58 => .ok { cfg with state := .FormatPattern defaultFlags .Flags }
  | 35 => .ok { cfg with state := .FormatPattern { defaultFlags with alternate := true } .Flags }
  | 32 => .ok { cfg with state := .FormatPattern { defaultFlags with space := true } .Flags }
  | 46 => .ok { cfg with state := .FormatPattern defaultFlags .Precision }
  | 63 | 59 => .ok cfg
  | 116 =>
    (match cfg.stack with
     | .num n :: rest =>
       if n = 0 then .ok { cfg with stack := rest, state := .SeekIfElse 0 }
       else .ok { cfg with stack := rest }
     | .str _ :: _ => .error (.err (.typeMismatch 116))
     | [] => .error (.err (.stackUnderflow 116)))
  | 101 => .ok { cfg with state := .SeekIfEnd 0 }
  | c =>
    if 48 ≤ c ∧ c ≤ 57 then
      .ok { cfg with state := .FormatPattern { defaultFlags with width := c - 48 } .Width }
    else .error (.err (.unrecognizedFormatOption c))

/-- Handler for `States::FormatPattern`; returns the new configuration and
the `old_state` value used by the reset-to-`Nothing` rule. -/
def stepFormat (cfg : Config) (flags : Flags) (fstate : FormatState) (c : Nat) :
    Except Failure (Config × States) :=
  match fstate, c with
  | _, 100 | _, 111 | _, 120 | _, 88 | _, 115 =>
    (match cfg.stack with
     | arg :: rest =>
       (match format arg c flags with
        | .ok bs =>
          .ok ({ cfg with stack := rest, output := cfg.output ++ bs },
               .FormatPattern flags fstate)
        | .error e => .error (.err e))
     | [] => .error (.err (.stackUnderflow c)))
  | .Flags, 35 =>
    .ok ({ cfg with state := .FormatPattern { flags with alternate := true } fstate }, .Nothing)
  | .Flags, 45 =>
    .ok ({ cfg with state := .FormatPattern { flags with left := true } fstate }, .Nothing)
  | .Flags, 43 =>
    .ok ({ cfg with state := .FormatPattern { flags with sign := true } fstate }, .Nothing)
  | .Flags, 32 =>
    .ok ({ cfg with state := .FormatPattern { flags with space := true } fstate }, .Nothing)
  | .Width, 46 | .Flags, 46 =>
    .ok ({ cfg with state := .FormatPattern flags .Precision }, .Nothing)
  | fs, c =>
    if 48 ≤ c ∧ c ≤ 57 then
      (match fs with
       | .Flags =>
         .ok ({ cfg with state := .FormatPattern { flags with width := c - 48 } .Width }, .Nothing)
       | .Width =>
         if flags.width * 10 + (c - 48) ≤ 65535 then
           let w := flags.width * 10 + (c - 48)
           .ok ({ cfg with state := .FormatPattern { flags with width := w } fs }, .Nothing)
         else .error (.err .formatWidthOverflow)
       | .Precision =>
         if (flags.precision.getD 0) * 10 + (c - 48) ≤ 65535 then
           let p := (flags.precision.getD 0) * 10 + (c - 48)
           .ok ({ cfg with state := .FormatPattern { flags with precision := some p } fs }, .Nothing)
         else .error (.err .formatPrecisionOverflow))
    else .error (.err (.unrecognizedFormatOption c))

/-- One interpreter step on one byte, before the reset-to-`Nothing` rule;
the second component is the `old_state` value the rule compares against. -/
def stepAux (cfg : Config) (c : Nat) : Except Failure (Config × States) :=
  match cfg.state with
  | .Nothing =>
    if c = 37 then .ok ({ cfg with state := .Percent }, .Nothing)
    else if c = 36 then .ok ({ cfg with state := .Delay }, .Nothing)
    else .ok ({ cfg with output := cfg.output ++ [c] }, .Nothing)
  | .Delay =>
    if c = 62 then .ok ({ cfg with state := .Nothing }, .Nothing)
    else .ok (cfg, .Nothing)
  | .Percent => (stepPercent cfg c).map (·, .Percent)
  | .PushParam =>
    if 49 ≤ c ∧ c ≤ 57 then
      .ok ({ cfg with stack := cfg.mparams.getD (c - 49) (.num 0) :: cfg.stack }, .PushParam)
    else .error (.err (.invalidParameterIndex c))
  | .SetVar =>
    match cfg.stack with
    | [] => .error (.err (.stackUnderflow 80))
    | arg :: rest =>
      if 65 ≤ c ∧ c ≤ 90 then
        .ok ({ cfg with stack := rest, statics := cfg.statics.set (c - 65) arg }, .SetVar)
      else if 97 ≤ c ∧ c ≤ 122 then
        .ok ({ cfg with stack := rest, dynVars := cfg.dynVars.set (c - 97) arg }, .SetVar)
      else .error (.err (.invalidVariableName c))
  | .GetVar =>
    if 65 ≤ c ∧ c ≤ 90 then
      .ok ({ cfg with stack := cfg.statics.getD (c - 65) (.num 0) :: cfg.stack }, .GetVar)
    else if 97 ≤ c ∧ c ≤ 122 then
      .ok ({ cfg with stack := cfg.dynVars.getD (c - 97) (.num 0) :: cfg.stack }, .GetVar)
    else .error (.err (.invalidVariableName c))
  | .CharConstant =>
    .ok ({ cfg with stack := .num (c : Int) :: cfg.stack, state := .CharClose }, .CharConstant)
  | .CharClose =>
    if c = 39 then .ok (cfg, .CharClose)
    else .error (.err .malformedCharacterConstant)
  | .IntConstant i =>
    if c = 125 then
      .ok ({ cfg with stack := .num i :: cfg.stack, state := .Nothing }, .IntConstant i)
    else if 48 ≤ c ∧ c ≤ 57 then
      if i * 10 + ((c : Int) - 48) ≤ 2147483647 then
        .ok ({ cfg with state := .IntConstant (i * 10 + ((c : Int) - 48)) }, .Nothing)
      else .error (.err .integerConstantOverflow)
    else .error (.err .malformedIntegerConstant)
  | .FormatPattern flags fstate => stepFormat cfg flags fstate c
  | .SeekIfElse level =>
    if c = 37 then .ok ({ cfg with state := .SeekIfElsePercent level }, .Nothing)
    else .ok (cfg, .Nothing)
  | .SeekIfElsePercent level =>
    if c = 59 then
      if level = 0 then .ok ({ cfg with state := .Nothing }, .SeekIfElsePercent level)
      else .ok ({ cfg with state := .SeekIfElse (level - 1) }, .SeekIfElsePercent level)
    else if c = 101 ∧ level = 0 then
      .ok ({ cfg with state := .Nothing }, .SeekIfElsePercent level)
    else if c = 63 then
      .ok ({ cfg with state := .SeekIfElse (level + 1) }, .SeekIfElsePercent level)
    else .ok ({ cfg with state := .SeekIfElse level }, .SeekIfElsePercent level)
  | .SeekIfEnd level =>
    if c = 37 then .ok ({ cfg with state := .SeekIfEndPercent level }, .Nothing)
    else .ok (cfg, .Nothing)
  | .SeekIfEndPercent level =>
    if c = 59 then
      if level = 0 then .ok ({ cfg with state := .Nothing }, .SeekIfEndPercent level)
      else .ok ({ cfg with state := .SeekIfEnd (level - 1) }, .SeekIfEndPercent level)
    else if c = 63 then
      .ok ({ cfg with state := .SeekIfEnd (level + 1) }, .SeekIfEndPercent level)
    else .ok ({ cfg with state := .SeekIfEnd level }, .SeekIfEndPercent level)

/-- One interpreter step including the reset rule: if the handler left the
state equal to `old_state`, the state resets to `Nothing`. -/
def step (cfg : Config) (c : Nat) : Except Failure Config :=
  match stepAux cfg c with
  | .error f => .error f
  | .ok (cfg', old) =>
    .ok (if cfg'.state = old then { cfg' with state := .Nothing } else cfg')

/-- Run the interpreter over the capability bytes; on failure, the returned
configuration is the one reached just before the failing byte. -/
def run : List Nat → Config → Config × Option Failure
  | [], cfg => (cfg, none)
  | b :: rest, cfg =>
    match step cfg b with
    | .ok cfg' => run rest cfg'
    | .error f => (cfg, some f)

/-- Pad the parameter vector with `Number(0)` to at least nine entries. -/
def padParams (l : List Parameter) : List Parameter :=
  l ++ List.replicate (9 - l.length) (.num 0)

/-- Initial per-call configuration (fresh dynamic variables and stack). -/
def initConfig (statics : List Parameter) (params : List Parameter) : Config :=
  { state := .Nothing, output := [], stack := [],
    dynVars := List.replicate 26 (.num 0),
    mparams := padParams params, incremented := false, statics := statics }

/-- `ExpandContext::expand`: returns the produced bytes (or failure) together
with the context's static variables after the call. -/
def expand (statics : List Parameter) (cap : List Nat) (params : List Parameter) :
    Except Failure (List Nat) × List Parameter :=
  match run cap (initConfig statics params) with
  | (cfg, none) => (.ok cfg.output, cfg.statics)
  | (cfg, some f) => (.error f, cfg.statics)

/-- Static variables of a fresh `ExpandContext` (all `Number(0)`). -/
def freshStatics : List Parameter := List.replicate 26 (.num 0)

/-- Expansion on a freshly created context. -/
def expandTop (cap : List Nat) (params : List Parameter) :
    Except Failure (List Nat) × List Parameter :=
  expand freshStatics cap params

/-! ## Parser data model (src/parse.rs) -/

/-- Errors reported when parsing a terminfo database (`parse::Error`), plus
an explicit `panic` constructor modelling the one unguarded slice index in
`get_string`, proven unreachable below. -/
inductive ParseError where
  | badMagic
  | unterminatedString
  | unsupportedFormat
  | invalidBooleanValue (v : Nat)
  | io
  | utf8
  | panic
deriving DecidableEq, Repr

/-- A `Cursor<&[u8]>`: the underlying buffer and the current position. -/
structure Reader where
  data : List Nat
  pos : Nat
deriving DecidableEq, Repr

/-- `read_exact` for `n` bytes: short reads are I/O errors. -/
def readExact (r : Reader) (n : Nat) : Except ParseError (List Nat × Reader) :=
  if r.pos + n ≤ r.data.length then
    .ok ((r.data.drop r.pos).take n, { r with pos := r.pos + n })
  else .error .io

/-- Little-endian 16-bit value from two bytes. -/
def le16 (b0 b1 : Nat) : Nat := b0 + 256 * b1

def readU8R (r : Reader) : Except ParseError (Nat × Reader) :=
  (readExact r 1).map fun p => (p.1.getD 0 0, p.2)

def readLe16R (r : Reader) : Except ParseError (Nat × Reader) :=
  (readExact r 2).map fun p => (le16 (p.1.getD 0 0) (p.1.getD 1 0), p.2)

/-- `read_slice`: seek forward by `size` and return the traversed bytes;
a slice extending past the end of the buffer is `UnsupportedFormat`. -/
def readSliceR (r : Reader) (size : Nat) : Except ParseError (List Nat × Reader) :=
  if r.pos + size ≤ r.data.length then
    .ok ((r.data.drop r.pos).take size, { r with pos := r.pos + size })
  else .error .unsupportedFormat

/-- `align_cursor`: skip one byte if the position is odd (never fails). -/
def alignR (r : Reader) : Reader :=
  if r.pos % 2 = 1 then { r with pos := r.pos + 1 } else r

/-- `seek_relative` used to skip the terminal-names blob (never fails). -/
def skipR (r : Reader) (n : Nat) : Reader :=
  { r with pos := r.pos + n }

/-- Sign extension of a 16-bit little-endian value (`i16` reinterpretation). -/
def toI16 (n : Nat) : Int :=
  if n < 32768 then (n : Int) else (n : Int) - 65536

/-- Sign extension of a 32-bit little-endian value (`i32` reinterpretation). -/
def toI32 (n : Nat) : Int :=
  if n < 2147483648 then (n : Int) else (n : Int) - 4294967296

/-- `check_offset`: the sentinels ABSENT (-1) and CANCELED (-2) become `none`. -/
def checkOffset (v : Nat) : Option Nat :=
  if toI16 v = -1 ∨ toI16 v = -2 then none else some v

/-- Index of the first NUL byte in a list, if any. -/
def findNul : List Nat → Option Nat
  | [] => none
  | b :: rest => if b = 0 then some 0 else (findNul rest).map (· + 1)

/-- `get_string`: a NUL-terminated byte string at `offset` in the pool.
An offset past the end of the pool is `UnsupportedFormat`; no NUL before the
end of the pool is `UnterminatedString`.  The Rust source then takes
`&string_table[offset..offset + string_length]`, a panicking index; the
`panic` branch records that (and is proven unreachable). -/
def getString (table : List Nat) (offset : Nat) : Except ParseError (List Nat) :=
  if offset > table.length then .error .unsupportedFormat
  else
    match findNul (table.drop offset) with
    | some len =>
      if offset + len ≤ table.length then .ok ((table.drop offset).take len)
      else .error .panic
    | none => .error .unterminatedString

/-- `Terminfo::read_number` on the main reader: reads `numberSize` bytes,
little-endian, sign-extended; only strictly positive values are kept. -/
def readNumberR (numberSize : Nat) (r : Reader) :
    Except ParseError (Option Int × Reader) :=
  if numberSize = 4 then
    (readExact r 4).map fun p =>
      let v := toI32 (p.1.getD 0 0 + 256 * p.1.getD 1 0 +
        65536 * p.1.getD 2 0 + 16777216 * p.1.getD 3 0)
      (if 0 < v then some v else none, p.2)
  else
    (readExact r 2).map fun p =>
      let v := toI16 (le16 (p.1.getD 0 0) (p.1.getD 1 0))
      (if 0 < v then some v else none, p.2)

/-- Canonical boolean capability names (`BOOL_NAMES`). -/
def boolNamesList : List String := ["bw", "am", "xsb", "xhp", "xenl", "eo", "gn", "hc", "km",
  "hs", "in", "db", "da", "mir", "msgr", "os", "eslok", "xt", "hz", "ul", "xon", "nxon", "mc5i",
  "chts", "nrrmc", "npc", "ndscr", "ccc", "bce", "hls", "xhpa", "crxm", "daisy", "xvpa", "sam",
  "cpix", "lpix", "OTbs", "OTns", "OTnc", "OTMT", "OTNL", "OTpt", "OTxr"]

/-- Canonical numeric capability names (`NUM_NAMES`). -/
def numNamesList : List String := ["cols", "it", "lines", "lm", "xmc", "pb", "vt", "wsl", "nlab",
  "lh", "lw", "ma", "wnum", "colors", "pairs", "ncv", "bufsz", "spinv", "spinh", "maddr", "mjump",
  "mcs", "mls", "npins", "orc", "orl", "orhi", "orvi", "cps", "widcs", "btns", "bitwin", "bitype",
  "UTug", "OTdC", "OTdN", "OTdB", "OTdT", "OTkn"]

/-- Canonical string capability names (`STR_NAMES`). -/
def strNamesList : List String := ["cbt", "bel", "cr", "csr", "tbc", "clear", "el", "ed", "hpa",
  "cmdch", "cup", "cud1", "home", "civis", "cub1", "mrcup", "cnorm", "cuf1", "ll", "cuu1",
  "cvvis", "dch1", "dl1", "dsl", "hd", "smacs", "blink", "bold", "smcup", "smdc", "dim", "smir",
  "invis", "prot", "rev", "smso", "smul", "ech", "rmacs", "sgr0", "rmcup", "rmdc", "rmir", "rmso",
  "rmul", "flash", "ff", "fsl", "is1", "is2", "is3", "if", "ich1", "il1", "ip", "kbs", "ktbc",
  "kclr", "kctab", "kdch1", "kdl1", "kcud1", "krmir", "kel", "ked", "kf0", "kf1", "kf10", "kf2",
  "kf3", "kf4", "kf5", "kf6", "kf7", "kf8", "kf9", "khome", "kich1", "kil1", "kcub1", "kll",
  "knp", "kpp", "kcuf1", "kind", "kri", "khts", "kcuu1", "rmkx", "smkx", "lf0", "lf1", "lf10",
  "lf2", "lf3", "lf4", "lf5", "lf6", "lf7", "lf8", "lf9", "rmm", "smm", "nel", "pad", "dch", "dl",
  "cud", "ich", "indn", "il", "cub", "cuf", "rin", "cuu", "pfkey", "pfloc", "pfx", "mc0", "mc4",
  "mc5", "rep", "rs1", "rs2", "rs3", "rf", "rc", "vpa", "sc", "ind", "ri", "sgr", "hts", "wind",
  "ht", "tsl", "uc", "hu", "iprog", "ka1", "ka3", "kb2", "kc1", "kc3", "mc5p", "rmp", "acsc",
  "pln", "kcbt", "smxon", "rmxon", "smam", "rmam", "xonc", "xoffc", "enacs", "smln", "rmln",
  "kbeg", "kcan", "kclo", "kcmd", "kcpy", "kcrt", "kend", "kent", "kext", "kfnd", "khlp", "kmrk",
  "kmsg", "kmov", "knxt", "kopn", "kopt", "kprv", "kprt", "krdo", "kref", "krfr", "krpl", "krst",
  "kres", "ksav", "kspd", "kund", "kBEG", "kCAN", "kCMD", "kCPY", "kCRT", "kDC", "kDL", "kslt",
  "kEND", "kEOL", "kEXT", "kFND", "kHLP", "kHOM", "kIC", "kLFT", "kMSG", "kMOV", "kNXT", "kOPT",
  "kPRV", "kPRT", "kRDO", "kRPL", "kRIT", "kRES", "kSAV", "kSPD", "kUND", "rfi", "kf11", "kf12",
  "kf13", "kf14", "kf15", "kf16", "kf17", "kf18", "kf19", "kf20", "kf21", "kf22", "kf23", "kf24",
  "kf25", "kf26", "kf27", "kf28", "kf29", "kf30", "kf31", "kf32", "kf33", "kf34", "kf35", "kf36",
  "kf37", "kf38", "kf39", "kf40", "kf41", "kf42", "kf43", "kf44", "kf45", "kf46", "kf47", "kf48",
  "kf49", "kf50", "kf51", "kf52", "kf53", "kf54", "kf55", "kf56", "kf57", "kf58", "kf59", "kf60",
  "kf61", "kf62", "kf63", "el1", "mgc", "smgl", "smgr", "fln", "sclk", "dclk", "rmclk", "cwin",
  "wingo", "hup", "dial", "qdial", "tone", "pulse", "hook", "pause", "wait", "u0", "u1", "u2",
  "u3", "u4", "u5", "u6", "u7", "u8", "u9", "op", "oc", "initc", "initp", "scp", "setf", "setb",
  "cpi", "lpi", "chr", "cvr", "defc", "swidm", "sdrfq", "sitm", "slm", "smicm", "snlq", "snrmq",
  "sshm", "ssubm", "ssupm", "sum", "rwidm", "ritm", "rlm", "rmicm", "rshm", "rsubm", "rsupm",
  "rum", "mhpa", "mcud1", "mcub1", "mcuf1", "mvpa", "mcuu1", "porder", "mcud", "mcub", "mcuf",
  "mcuu", "scs", "smgb", "smgbp", "smglp", "smgrp", "smgt", "smgtp", "sbim", "scsd", "rbim",
  "rcsd", "subcs", "supcs", "docr", "zerom", "csnm", "kmous", "minfo", "reqmp", "getm", "setaf",
  "setab", "pfxl", "devt", "csin", "s0ds", "s1ds", "s2ds", "s3ds", "smglr", "smgtb", "birep",
  "binel", "bicr", "colornm", "defbi", "endbi", "setcolor", "slines", "dispc", "smpch", "rmpch",
  "smsc", "rmsc", "pctrm", "scesc", "scesa", "ehhlm", "elhlm", "elohlm", "erhlm", "ethlm",
  "evhlm", "sgr1", "slength", "OTi2", "OTrs", "OTnl", "OTbs", "OTko", "OTma", "OTG2", "OTG3",
  "OTG1", "OTG4", "OTGR", "OTGL", "OTGU", "OTGD", "OTGH", "OTGV", "OTGC", "meml", "memu", "box1"]

/-- Capability names as byte lists; keys of the parsed maps are byte lists,
identifying the UTF-8 text the Rust code stores. -/
def boolNames : List (List Nat) := boolNamesList.map strBytes

def numNames : List (List Nat) := numNamesList.map strBytes

def strNames : List (List Nat) := strNamesList.map strBytes

/-- Parsed terminfo entry (`struct Terminfo`); sets and maps are modelled as
lists, insertion overwriting an existing key like `BTreeMap::insert`. -/
structure Terminfo where
  booleans : List (List Nat)
  numbers : List (List Nat × Int)
  strings : List (List Nat × List Nat)
  numberSize : Nat
deriving DecidableEq, Repr

/-- Set insertion (`BTreeSet::insert`): no duplicate keys. -/
def setInsert (l : List (List Nat)) (k : List Nat) : List (List Nat) :=
  if k ∈ l then l else l ++ [k]

/-- Map insertion (`BTreeMap::insert`): overwrite or append. -/
def mapInsert {α : Type} (m : List (List Nat × α)) (k : List Nat) (v : α) :
    List (List Nat × α) :=
  match m with
  | [] => [(k, v)]
  | (k', v') :: rest =>
    if k' = k then (k, v) :: rest else (k', v') :: mapInsert rest k v

/-- UTF-8 continuation byte (10xxxxxx). -/
def utf8Cont (b : Nat) : Bool := decide (128 ≤ b ∧ b ≤ 191)

/-- UTF-8 validity of a byte list, as `str::from_utf8` checks it. -/
def isValidUtf8 : List Nat → Bool
  | [] => true
  | b :: rest =>
    if b ≤ 127 then isValidUtf8 rest
    else if 194 ≤ b ∧ b ≤ 223 then
      match rest with
      | c1 :: rest' => utf8Cont c1 && isValidUtf8 rest'
      | [] => false
    else if 224 ≤ b ∧ b ≤ 239 then
      match rest with
      | c1 :: c2 :: rest' =>
        (if b = 224 then decide (160 ≤ c1 ∧ c1 ≤ 191)
         else if b = 237 then decide (128 ≤ c1 ∧ c1 ≤ 159)
         else utf8Cont c1) && utf8Cont c2 && isValidUtf8 rest'
      | _ => false
    else if 240 ≤ b ∧ b ≤ 244 then
      match rest with
      | c1 :: c2 :: c3 :: rest' =>
        (if b = 240 then decide (144 ≤ c1 ∧ c1 ≤ 191)
         else if b = 244 then decide (128 ≤ c1 ∧ c1 ≤ 143)
         else utf8Cont c1) && utf8Cont c2 && utf8Cont c3 && isValidUtf8 rest'
      | _ => false
    else false

/-! ## Base section (`Terminfo::parse_base`) -/

/-- Boolean loop of `parse_base`: one byte per canonical name. -/
def readBools : List (List Nat) → Terminfo → Reader →
    Except ParseError (Terminfo × Reader)
  | [], t, r => .ok (t, r)
  | name :: names, t, r =>
    match readU8R r with
    | .error e => .error e
    | .ok (v, r') =>
      if v = 0 then readBools names t r'
      else if v = 1 then
        readBools names { t with booleans := setInsert t.booleans name } r'
      else .error (.invalidBooleanValue v)

/-- Number loop of `parse_base`: one `numberSize`-byte field per name. -/
def readNums : List (List Nat) → Terminfo → Reader →
    Except ParseError (Terminfo × Reader)
  | [], t, r => .ok (t, r)
  | name :: names, t, r =>
    match readNumberR t.numberSize r with
    | .error e => .error e
    | .ok (some v, r') =>
      readNums names { t with numbers := mapInsert t.numbers name v } r'
    | .ok (none, r') => readNums names t r'

/-- Reading a 16-bit value from a sub-slice modelled as a byte list. -/
def readLe16L : List Nat → Except ParseError (Nat × List Nat)
  | b0 :: b1 :: rest => .ok (le16 b0 b1, rest)
  | _ => .error .io

/-- String loop of `parse_base`: a 16-bit offset per name, sentinels
skipped, values cut out of the string pool. -/
def readStringsBase : List (List Nat) → List Nat → List Nat → Terminfo →
    Except ParseError Terminfo
  | [], _, _, t => .ok t
  | name :: names, offs, table, t =>
    match readLe16L offs with
    | .error e => .error e
    | .ok (off, offs') =>
      match checkOffset off with
      | none => readStringsBase names offs' table t
      | some o =>
        match getString table o with
        | .error e => .error e
        | .ok v =>
          readStringsBase names offs' table { t with strings := mapInsert t.strings name v }

/-- `Terminfo::parse_base`: header, names blob, booleans, alignment,
numbers, string offsets, string pool. -/
def parseBase (buffer : List Nat) : Except ParseError (Terminfo × Reader) := do
  let r : Reader := ⟨buffer, 0⟩
  let (magic, r) ← readLe16R r
  let (nameSize, r) ← readLe16R r
  let (boolCount, r) ← readLe16R r
  let (numCount, r) ← readLe16R r
  let (strCount, r) ← readLe16R r
  let (strSize, r) ← readLe16R r
  let numberSize ←
    (if magic = 282 then .ok 2
     else if magic = 542 then .ok 4
     else .error .badMagic : Except ParseError Nat)
  let _ ←
    (if boolCount > boolNames.length ∨ numCount > numNames.length ∨
        strCount > strNames.length then
      .error .unsupportedFormat
     else .ok () : Except ParseError Unit)
  let t : Terminfo :=
    { booleans := [], numbers := [], strings := [], numberSize := numberSize }
  let r := skipR r nameSize
  let (t, r) ← readBools (boolNames.take boolCount) t r
  let r := alignR r
  let (t, r) ← readNums (numNames.take numCount) t r
  let (strOffsets, r) ← readSliceR r (2 * strCount)
  let (strTable, r) ← readSliceR r strSize
  let t ← readStringsBase (strNames.take strCount) strOffsets strTable t
  .ok (t, r)

/-! ## Extended section (`Terminfo::parse_extended`) -/

/-- Split-point loop: sum of NUL-terminated lengths (+1) of the referenced
extended string values, walking the value-offset table. -/
def extNamesBase (table : List Nat) : List Nat → Nat → Except ParseError Nat
  | b0 :: b1 :: rest, acc =>
    (match checkOffset (le16 b0 b1) with
     | none => extNamesBase table rest acc
     | some o =>
       match getString table o with
       | .error e => .error e
       | .ok v => extNamesBase table rest (acc + v.length + 1))
  | _, acc => .ok acc

/-- Non-mutating preparation of `parse_extended`: the five header fields,
the four sub-slices, the split point and the names region.  Everything here
runs before the first insertion into the `Terminfo`. -/
def extPrep (numberSize : Nat) (r : Reader) :
    Except ParseError (List Nat × List Nat × List Nat × List Nat × List Nat × List Nat) := do
  let r := alignR r
  let (boolCount, r) ← readLe16R r
  let (numCount, r) ← readLe16R r
  let (strCount, r) ← readLe16R r
  let (_extStrUsage, r) ← readLe16R r
  let (strLimit, r) ← readLe16R r
  let (bools, r) ← readSliceR r boolCount
  let r := alignR r
  let (nums, r) ← readSliceR r (numberSize * numCount)
  let (strs, r) ← readSliceR r (2 * strCount)
  let nameCount := boolCount + numCount + strCount
  let (names, r) ← readSliceR r (2 * nameCount)
  let (strTable, _) ← readSliceR r strLimit
  let namesBase ← extNamesBase strTable strs 0
  if namesBase > strTable.length then .error .unsupportedFormat
  else .ok (bools, nums, strs, names, strTable, strTable.drop namesBase)

/-- Extended boolean loop; returns the mutated entry, the remaining name
offsets and an optional error (mutations before the error are kept). -/
def extBools (namesTable : List Nat) :
    List Nat → List Nat → Terminfo → Terminfo × List Nat × Option ParseError
  | [], names, t => (t, names, none)
  | v :: bs, names, t =>
    match names with
    | n0 :: n1 :: names' =>
      if v = 0 then extBools namesTable bs names' t
      else if v = 1 then
        match checkOffset (le16 n0 n1) with
        | none => (t, names', some .unsupportedFormat)
        | some o =>
          match getString namesTable o with
          | .error e => (t, names', some e)
          | .ok name =>
            if isValidUtf8 name then
              extBools namesTable bs names' { t with booleans := setInsert t.booleans name }
            else (t, names', some .utf8)
      else (t, names', some (.invalidBooleanValue v))
    | _ => (t, names, some .unsupportedFormat)

/-- Extended number loop for 16-bit number fields. -/
def extNums2 (namesTable : List Nat) :
    List Nat → List Nat → Terminfo → Terminfo × List Nat × Option ParseError
  | b0 :: b1 :: ns, names, t =>
    (match names with
     | n0 :: n1 :: names' =>
       let v := toI16 (le16 b0 b1)
       if 0 < v then
         match checkOffset (le16 n0 n1) with
         | none => (t, names', some .unsupportedFormat)
         | some o =>
           match getString namesTable o with
           | .error e => (t, names', some e)
           | .ok name =>
             if isValidUtf8 name then
               extNums2 namesTable ns names' { t with numbers := mapInsert t.numbers name v }
             else (t, names', some .utf8)
       else extNums2 namesTable ns names' t
     | _ => (t, names, some .unsupportedFormat))
  | _, names, t => (t, names, none)

/-- Extended number loop for 32-bit number fields. -/
def extNums4 (namesTable : List Nat) :
    List Nat → List Nat → Terminfo → Terminfo × List Nat × Option ParseError
  | b0 :: b1 :: b2 :: b3 :: ns, names, t =>
    (match names with
     | n0 :: n1 :: names' =>
       let v := toI32 (b0 + 256 * b1 + 65536 * b2 + 16777216 * b3)
       if 0 < v then
         match checkOffset (le16 n0 n1) with
         | none => (t, names', some .unsupportedFormat)
         | some o =>
           match getString namesTable o with
           | .error e => (t, names', some e)
           | .ok name =>
             if isValidUtf8 name then
               extNums4 namesTable ns names' { t with numbers := mapInsert t.numbers name v }
             else (t, names', some .utf8)
       else extNums4 namesTable ns names' t
     | _ => (t, names, some .unsupportedFormat))
  | _, names, t => (t, names, none)

/-- Extended string loop: an entry is produced only when both the value
offset and the name offset are non-sentinel. -/
def extStrs (strTable namesTable : List Nat) :
    List Nat → List Nat → Terminfo → Terminfo × Option ParseError
  | s0 :: s1 :: ss, names, t =>
    (match names with
     | n0 :: n1 :: names' =>
       match checkOffset (le16 s0 s1), checkOffset (le16 n0 n1) with
       | some so, some no =>
         (match getString strTable so with
          | .error e => (t, some e)
          | .ok v =>
            match getString namesTable no with
            | .error e => (t, some e)
            | .ok name =>
              if isValidUtf8 name then
                extStrs strTable namesTable ss names' { t with strings := mapInsert t.strings name v }
              else (t, some .utf8))
       | _, _ => extStrs strTable namesTable ss names' t
     | _ => (t, some .unsupportedFormat))
  | _, _, t => (t, none)

/-- `Terminfo::parse_extended`: returns the (possibly partially) mutated
entry and an optional error, mirroring mutation through `&mut self`. -/
def parseExtended (t : Terminfo) (r : Reader) : Terminfo × Option ParseError :=
  match extPrep t.numberSize r with
  | .error e => (t, some e)
  | .ok (bools, nums, strs, names, strTable, namesTable) =>
    match extBools namesTable bools names t with
    | (t1, _, some e) => (t1, some e)
    | (t1, names1, none) =>
      match (if t1.numberSize = 4 then extNums4 namesTable nums names1 t1
             else extNums2 namesTable nums names1 t1) with
      | (t2, _, some e) => (t2, some e)
      | (t2, names2, none) => extStrs strTable namesTable strs names2 t2

/-- `parse`: base section, then the extended trailer; an I/O error in the
extended trailer is tolerated and the entry parsed so far is returned. -/
def parse (buffer : List Nat) : Except ParseError Terminfo :=
  match parseBase buffer with
  | .error e => .error e
  | .ok (t, r) =>
    match parseExtended t r with
    | (t', none) => .ok t'
    | (t', some .io) => .ok t'
    | (_, some e) => .error e

/-! ## Generic instances and run lemmas -/

instance {ε α : Type} [DecidableEq ε] [DecidableEq α] : DecidableEq (Except ε α) := fun x y =>
  match x, y with
  | .error a, .error b =>
    if h : a = b then .isTrue (by rw [h]) else .isFalse (by simp [h])
  | .ok a, .ok b =>
    if h : a = b then .isTrue (by rw [h]) else .isFalse (by simp [h])
  | .error _, .ok _ => .isFalse (by simp)
  | .ok _, .error _ => .isFalse (by simp)

/-- Test capability of C1, the nested conditional. -/
def capC1 : List Nat := strBytes "%?%p1%t+%?%p2%t+%e-%;%e-%?%p2%t+%e-%;%;"

/-- Test capability of C6: one `%i` then an output of parameter 1. -/
def capC6 : List Nat := strBytes "%i%p1%c"

theorem run_append (xs ys : List Nat) (cfg : Config) :
    run (xs ++ ys) cfg =
      (match run xs cfg with
       | (c, none) => run ys c
       | (c, some f) => (c, some f)) := by
  induction xs generalizing cfg with
  | nil => simp [run]
  | cons b xs ih =>
    simp only [List.cons_append, run]
    cases h : step cfg b <;> simp [h, ih]

/-! ## Step lemmas for the delay directive -/

theorem step_nothing_dollar (cfg : Config) (h : cfg.state = .Nothing) :
    step cfg 36 = .ok { cfg with state := .Delay } := by
  obtain ⟨st, out, stk, dyn, mp, inc, sv⟩ := cfg
  simp only at h
  subst h
  simp [step, stepAux]

theorem step_delay_skip (cfg : Config) (b : Nat) (h : cfg.state = .Delay)
    (hb : b ≠ 62) : step cfg b = .ok cfg := by
  obtain ⟨st, out, stk, dyn, mp, inc, sv⟩ := cfg
  simp only at h
  subst h
  simp [step, stepAux, hb]

theorem step_delay_close (cfg : Config) (h : cfg.state = .Delay) :
    step cfg 62 = .ok { cfg with state := .Nothing } := by
  obtain ⟨st, out, stk, dyn, mp, inc, sv⟩ := cfg
  simp only at h
  subst h
  simp [step, stepAux]

theorem run_delay_skip (xs : List Nat) (cfg : Config) (h : cfg.state = .Delay)
    (hxs : 62 ∉ xs) : run xs cfg = (cfg, none) := by
  induction xs with
  | nil => simp [run]
  | cons b xs ih =>
    have hb : b ≠ 62 := fun hb => hxs (hb ▸ List.mem_cons_self b xs)
    simp only [run, step_delay_skip cfg b h hb]
    exact ih (fun hm => hxs (List.mem_cons_of_mem b hm))

/-! ## Step lemmas for `%i` -/

theorem step_nothing_percent (cfg : Config) (h : cfg.state = .Nothing) :
    step cfg 37 = .ok { cfg with state := .Percent } := by
  obtain ⟨st, out, stk, dyn, mp, inc, sv⟩ := cfg
  simp only at h
  subst h
  simp [step, stepAux]

theorem step_incr_noop (cfg : Config) (x y : Int) (ps : List Parameter)
    (hst : cfg.state = .Percent) (hinc : cfg.incremented = true)
    (hmp : cfg.mparams = .num x :: .num y :: ps) :
    step cfg 105 = .ok { cfg with state := .Nothing } := by
  obtain ⟨st, out, stk, dyn, mp, inc, sv⟩ := cfg
  simp only at hst hinc hmp
  subst hst hinc hmp
  simp [step, stepAux, stepPercent, Except.map]

theorem step_incr_once (cfg : Config) (x y : Int) (ps : List Parameter)
    (hst : cfg.state = .Percent) (hinc : cfg.incremented = false)
    (hmp : cfg.mparams = .num x :: .num y :: ps) :
    step cfg 105 = .ok { cfg with state := .Nothing,
                                  mparams := .num (wrap32 (x + 1)) :: .num (wrap32 (y + 1)) :: ps,
                                  incremented := true } := by
  obtain ⟨st, out, stk, dyn, mp, inc, sv⟩ := cfg
  simp only at hst hinc hmp
  subst hst hinc hmp
  simp [step, stepAux, stepPercent, Except.map]

/-! ## Statics frame lemmas -/

theorem stepPercent_statics {cfg : Config} {c : Nat} {cfg' : Config}
    (h : stepPercent cfg c = .ok cfg') : cfg'.statics = cfg.statics := by
  unfold stepPercent at h
  simp only [Except.map] at h
  repeat' split at h
  all_goals first
    | exact Except.noConfusion h
    | (injection h with h2; subst h2; rfl)

theorem stepFormat_statics {cfg : Config} {flags : Flags} {fstate : FormatState}
    {c : Nat} {p : Config × States}
    (h : stepFormat cfg flags fstate c = .ok p) : p.1.statics = cfg.statics := by
  unfold stepFormat at h
  repeat' split at h
  all_goals first
    | exact Except.noConfusion h
    | (injection h with h2; subst h2; rfl)

theorem stepAux_statics {cfg : Config} {b : Nat} {p : Config × States}
    (h : stepAux cfg b = .ok p)
    (hsv : cfg.state = .SetVar → ¬(65 ≤ b ∧ b ≤ 90)) :
    p.1.statics = cfg.statics := by
  unfold stepAux at h
  split at h
  case _ heq =>
    repeat' split at h
    all_goals first
      | exact Except.noConfusion h
      | (injection h with h2; subst h2; rfl)
  case _ heq =>
    repeat' split at h
    all_goals first
      | exact Except.noConfusion h
      | (injection h with h2; subst h2; rfl)
  case _ heq =>
    simp only [Except.map] at h
    split at h
    all_goals first
      | exact Except.noConfusion h
      | (injection h with h2; subst h2; exact stepPercent_statics (by assumption))
  case _ heq =>
    repeat' split at h
    all_goals first
      | exact Except.noConfusion h
      | (injection h with h2; subst h2; rfl)
  case _ heq =>
    repeat' split at h
    all_goals first
      | exact Except.noConfusion h
      | (injection h with h2; subst h2; rfl)
      | (exact absurd (by assumption) (hsv heq))
  case _ heq =>
    repeat' split at h
    all_goals first
      | exact Except.noConfusion h
      | (injection h with h2; subst h2; rfl)
  case _ heq =>
    injection h with h2; subst h2; rfl
  case _ heq =>
    repeat' split at h
    all_goals first
      | exact Except.noConfusion h
      | (injection h with h2; subst h2; rfl)
  case _ heq =>
    repeat' split at h
    all_goals first
      | exact Except.noConfusion h
      | (injection h with h2; subst h2; rfl)
  case _ heq => exact stepFormat_statics h
  case _ heq =>
    repeat' split at h
    all_goals first
      | exact Except.noConfusion h
      | (injection h with h2; subst h2; rfl)
  case _ heq =>
    repeat' split at h
    all_goals first
      | exact Except.noConfusion h
      | (injection h with h2; subst h2; rfl)
  case _ heq =>
    repeat' split at h
    all_goals first
      | exact Except.noConfusion h
      | (injection h with h2; subst h2; rfl)
  case _ heq =>
    repeat' split at h
    all_goals first
      | exact Except.noConfusion h
      | (injection h with h2; subst h2; rfl)

theorem step_statics {cfg : Config} {b : Nat} {cfg' : Config}
    (h : step cfg b = .ok cfg')
    (hsv : cfg.state = .SetVar → ¬(65 ≤ b ∧ b ≤ 90)) :
    cfg'.statics = cfg.statics := by
  unfold step at h
  split at h
  case _ => exact Except.noConfusion h
  case _ c2 old hp =>
    injection h with h2
    subst h2
    have := stepAux_statics hp hsv
    split <;> simpa using this

theorem stepPercent_no_setvar {cfg : Config} {c : Nat} {cfg' : Config}
    (h : stepPercent cfg c = .ok cfg') (hb : c ≠ 80) (hst : cfg.state = .Percent) :
    cfg'.state ≠ .SetVar := by
  unfold stepPercent at h
  repeat' split at h
  all_goals first
    | exact Except.noConfusion h
    | exact absurd rfl hb
    | (injection h with h2; subst h2; simp [hst])

theorem stepFormat_no_setvar {cfg : Config} {flags : Flags} {fstate : FormatState}
    {c : Nat} {p : Config × States}
    (h : stepFormat cfg flags fstate c = .ok p)
    (hst : cfg.state = .FormatPattern flags fstate) : p.1.state ≠ .SetVar := by
  unfold stepFormat at h
  repeat' split at h
  all_goals first
    | exact Except.noConfusion h
    | (injection h with h2; subst h2; simp [hst])

theorem stepAux_no_setvar {cfg : Config} {b : Nat} {p : Config × States}
    (h : stepAux cfg b = .ok p) (hb : b ≠ 80) :
    p.1.state ≠ .SetVar ∨ p.1.state = p.2 := by
  unfold stepAux at h
  split at h
  case _ heq =>
    repeat' split at h
    all_goals first
      | exact Except.noConfusion h
      | (injection h with h2; subst h2; left; simp [heq])
  case _ heq =>
    repeat' split at h
    all_goals first
      | exact Except.noConfusion h
      | (injection h with h2; subst h2; left; simp [heq])
  case _ heq =>
    simp only [Except.map] at h
    split at h
    all_goals first
      | exact Except.noConfusion h
      | (injection h with h2; subst h2; left;
         exact stepPercent_no_setvar (by assumption) hb heq)
  case _ heq =>
    repeat' split at h
    all_goals first
      | exact Except.noConfusion h
      | (injection h with h2; subst h2; left; simp [heq])
  case _ heq =>
    repeat' split at h
    all_goals first
      | exact Except.noConfusion h
      | (injection h with h2; subst h2; right; simp [heq])
  case _ heq =>
    repeat' split at h
    all_goals first
      | exact Except.noConfusion h
      | (injection h with h2; subst h2; left; simp [heq])
  case _ heq =>
    injection h with h2; subst h2; left; simp [heq]
  case _ heq =>
    repeat' split at h
    all_goals first
      | exact Except.noConfusion h
      | (injection h with h2; subst h2; left; simp [heq])
  case _ heq =>
    repeat' split at h
    all_goals first
      | exact Except.noConfusion h
      | (injection h with h2; subst h2; left; simp [heq])
  case _ heq =>
    rcases h2 : p with ⟨c2, old⟩
    subst h2
    left
    exact stepFormat_no_setvar h heq
  case _ heq =>
    repeat' split at h
    all_goals first
      | exact Except.noConfusion h
      | (injection h with h2; subst h2; left; simp [heq])
  case _ heq =>
    repeat' split at h
    all_goals first
      | exact Except.noConfusion h
      | (injection h with h2; subst h2; left; simp [heq])
  case _ heq =>
    repeat' split at h
    all_goals first
      | exact Except.noConfusion h
      | (injection h with h2; subst h2; left; simp [heq])
  case _ heq =>
    repeat' split at h
    all_goals first
      | exact Except.noConfusion h
      | (injection h with h2; subst h2; left; simp [heq])

theorem step_no_enter_setvar {cfg : Config} {b : Nat} {cfg' : Config}
    (h : step cfg b = .ok cfg') (hb : b ≠ 80) : cfg'.state ≠ .SetVar := by
  unfold step at h
  split at h
  case _ => exact Except.noConfusion h
  case _ c2 old hp =>
    injection h with h2
    subst h2
    rcases stepAux_no_setvar hp hb with hns | heqold
    · split
      · simp
      · exact hns
    · split
      · simp
      · case _ hne => exact absurd heqold hne

theorem run_statics_frame (cap : List Nat) (cfg : Config) (hnp : 80 ∉ cap)
    (hst : cfg.state ≠ .SetVar) : ((run cap cfg).1).statics = cfg.statics := by
  induction cap generalizing cfg with
  | nil => simp [run]
  | cons b rest ih =>
    have hb : b ≠ 80 := fun e => hnp (e ▸ List.mem_cons_self b rest)
    have hrest : 80 ∉ rest := fun m => hnp (List.mem_cons_of_mem b m)
    simp only [run]
    cases h : step cfg b with
    | error f => simp
    | ok c' =>
      have h1 : c'.statics = cfg.statics := step_statics h (fun hsv => (hst hsv).elim)
      have h2 : c'.state ≠ .SetVar := step_no_enter_setvar h hb
      simp [ih c' hrest h2, h1]

theorem step_setvar_static (cfg : Config) (b : Nat) (v : Parameter) (s : List Parameter)
    (hst : cfg.state = .SetVar) (h1 : 65 ≤ b) (h2 : b ≤ 90) (hstk : cfg.stack = v :: s) :
    step cfg b = .ok { cfg with state := .Nothing, stack := s,
                                statics := cfg.statics.set (b - 65) v } := by
  obtain ⟨st, out, stk, dyn, mp, inc, sv⟩ := cfg
  simp only at hst hstk
  subst hst hstk
  simp [step, stepAux, h1, h2]

theorem step_getvar_static (cfg : Config) (b : Nat)
    (hst : cfg.state = .GetVar) (h1 : 65 ≤ b) (h2 : b ≤ 90) :
    step cfg b = .ok { cfg with state := .Nothing,
                                stack := cfg.statics.getD (b - 65) (.num 0) :: cfg.stack } := by
  obtain ⟨st, out, stk, dyn, mp, inc, sv⟩ := cfg
  simp only at hst
  subst hst
  simp [step, stepAux, h1, h2]

/-! ## Claim theorems for the expansion engine -/

/-- C1: for the capability `%?%p1%t+%?%p2%t+%e-%;%e-%?%p2%t+%e-%;%;` and
parameters (p1,p2) ranging over {0,1}², `expand` returns `Ok` with output
`--`, `-+`, `+-`, `++` respectively (and leaves the context unchanged). -/
theorem claim_C1 :
    expandTop capC1 [.num 0, .num 0] = (.ok (strBytes "--"), freshStatics) ∧
    expandTop capC1 [.num 0, .num 1] = (.ok (strBytes "-+"), freshStatics) ∧
    expandTop capC1 [.num 1, .num 0] = (.ok (strBytes "+-"), freshStatics) ∧
    expandTop capC1 [.num 1, .num 1] = (.ok (strBytes "++"), freshStatics) := by
  decide

/-- C2, counterexample: for the capability `$a` the byte `a` following the
`$` is NOT emitted literally — the delay state swallows it, so the output
is empty rather than `a`. -/
theorem claim_C2_cex :
    expandTop (strBytes "$a") [] = (.ok [], freshStatics) ∧
    ([] : List Nat) ≠ strBytes "a" := by
  decide

/-- C2, amended: a `$` outside a directive enters the delay state, which
drops the `$` and every following byte up to and including the first `>`;
processing then resumes.  If no `>` follows, the whole rest of the input is
dropped and the expansion ends in the delay state with unchanged output. -/
theorem claim_C2 :
    (∀ (cfg : Config) (xs rest : List Nat), cfg.state = .Nothing → 62 ∉ xs →
      run (36 :: (xs ++ 62 :: rest)) cfg = run rest cfg) ∧
    (∀ (cfg : Config) (xs : List Nat), cfg.state = .Nothing → 62 ∉ xs →
      run (36 :: xs) cfg = ({ cfg with state := .Delay }, none)) := by
  constructor
  · intro cfg xs rest hst hxs
    obtain ⟨st, out, stk, dyn, mp, inc, sv⟩ := cfg
    simp only at hst
    subst hst
    simp only [run, step_nothing_dollar ⟨.Nothing, out, stk, dyn, mp, inc, sv⟩ rfl]
    rw [run_append]
    rw [run_delay_skip xs ⟨.Delay, out, stk, dyn, mp, inc, sv⟩ rfl hxs]
    simp only [run, step_delay_close ⟨.Delay, out, stk, dyn, mp, inc, sv⟩ rfl]
  · intro cfg xs hst hxs
    obtain ⟨st, out, stk, dyn, mp, inc, sv⟩ := cfg
    simp only at hst
    subst hst
    simp only [run, step_nothing_dollar ⟨.Nothing, out, stk, dyn, mp, inc, sv⟩ rfl]
    exact run_delay_skip xs ⟨.Delay, out, stk, dyn, mp, inc, sv⟩ rfl hxs

/-- C2, witness instance: `$ab>c` from a fresh configuration behaves like
just `c`. -/
theorem claim_C2_witness :
    run (36 :: ([97, 98] ++ 62 :: [99])) (initConfig freshStatics []) =
      run [99] (initConfig freshStatics []) :=
  claim_C2.1 (initConfig freshStatics []) [97, 98] [99] rfl (by decide)

/-- C4, counterexample: `%/` with divisor 0 does not return an error value
to the caller — the embedded division panics (`Failure.panic`, distinct
from every `Failure.err`). -/
theorem claim_C4_cex :
    expandTop (strBytes "%p1%p2%/") [.num 1, .num 0] = (.error .panic, freshStatics) := by
  decide

/-- C4, amended: whenever the `%/` operator executes with two numbers on
the stack and the divisor (the first value popped, i.e. the top) equal to
0, the expansion panics — the unguarded Rust division `x / y` is reached
with `y == 0`; no error branch exists. -/
theorem claim_C4 (cfg : Config) (x : Int) (s : List Parameter)
    (hst : cfg.state = .Percent) (hstk : cfg.stack = .num 0 :: .num x :: s) :
    step cfg 47 = .error .panic := by
  obtain ⟨st, out, stk, dyn, mp, inc, sv⟩ := cfg
  simp only at hst hstk
  subst hst hstk
  simp [step, stepAux, stepPercent, Except.map, arith]

/-- C4, witness instance of the amended claim. -/
theorem claim_C4_witness :
    step ⟨.Percent, [], [.num 0, .num 5], [], [], false, []⟩ 47 = .error .panic :=
  claim_C4 ⟨.Percent, [], [.num 0, .num 5], [], [], false, []⟩ 5 [] rfl rfl

/-- C5: the `%c` directive pops a number `n` and appends the single byte
`n mod 256`, except that `n = 0` appends byte 0x80; in particular
`expand("%p1%c%p2%c%p3%c", [42, 0, 257])` yields the bytes `[42, 128, 1]`. -/
theorem claim_C5 :
    (∀ (cfg : Config) (n : Int) (s : List Parameter), cfg.state = .Percent →
      cfg.stack = .num n :: s →
      step cfg 99 = .ok { cfg with state := .Nothing, stack := s,
                                   output := cfg.output ++
                                     [(if n = 0 then 128 else (n.emod 256).toNat)] }) ∧
    expandTop (strBytes "%p1%c%p2%c%p3%c") [.num 42, .num 0, .num 257] =
      (.ok [42, 128, 1], freshStatics) := by
  constructor
  · intro cfg n s hst hstk
    obtain ⟨st, out, stk, dyn, mp, inc, sv⟩ := cfg
    simp only at hst hstk
    subst hst hstk
    simp [step, stepAux, stepPercent, Except.map]
  · decide

/-- C5, witness instance: popping 257 emits byte 1. -/
theorem claim_C5_witness :
    step ⟨.Percent, [], [.num 257], [], [], false, []⟩ 99 =
      .ok ⟨.Nothing, [1], [], [], [], false, []⟩ :=
  claim_C5.1 ⟨.Percent, [], [.num 257], [], [], false, []⟩ 257 [] rfl rfl

/-- C6: with the one-shot flag already set, a further `%i` is a no-op on
numeric parameters (first conjunct); with the flag clear, `%i` increments
parameters 1 and 2 and sets the flag (second conjunct); the flag is
per-call, so a second `expand` call on the context returned by the first
increments again and produces the same output `[5]` from parameter 4
(third conjunct). -/
theorem claim_C6 :
    (∀ (cfg : Config) (x y : Int) (ps : List Parameter) (rest : List Nat),
      cfg.state = .Nothing → cfg.incremented = true →
      cfg.mparams = .num x :: .num y :: ps →
      run (37 :: 105 :: rest) cfg = run rest cfg) ∧
    (∀ (cfg : Config) (x y : Int) (ps : List Parameter) (rest : List Nat),
      cfg.state = .Nothing → cfg.incremented = false →
      cfg.mparams = .num x :: .num y :: ps →
      run (37 :: 105 :: rest) cfg =
        run rest { cfg with mparams := .num (wrap32 (x + 1)) :: .num (wrap32 (y + 1)) :: ps,
                            incremented := true }) ∧
    (expandTop capC6 [.num 4, .num 9]).1 = .ok [5] ∧
    (expand (expandTop capC6 [.num 4, .num 9]).2 capC6 [.num 4, .num 9]).1 = .ok [5] := by
  refine ⟨?_, ?_, ?_, ?_⟩
  · intro cfg x y ps rest hst hinc hmp
    obtain ⟨st, out, stk, dyn, mp, inc, sv⟩ := cfg
    simp only at hst hinc hmp
    subst hst hinc hmp
    simp [run, step, stepAux, stepPercent, Except.map]
  · intro cfg x y ps rest hst hinc hmp
    obtain ⟨st, out, stk, dyn, mp, inc, sv⟩ := cfg
    simp only at hst hinc hmp
    subst hst hinc hmp
    simp [run, step, stepAux, stepPercent, Except.map]
  · decide
  · decide

/-- C6, witness instance of the no-op conjunct. -/
theorem claim_C6_witness :
    run [37, 105] ⟨.Nothing, [], [], [], [.num 1, .num 2], true, []⟩ =
      run [] ⟨.Nothing, [], [], [], [.num 1, .num 2], true, []⟩ :=
  claim_C6.1 ⟨.Nothing, [], [], [], [.num 1, .num 2], true, []⟩ 1 2 [] [] rfl rfl rfl

/-- C7: a step that is not an uppercase `%P` store leaves the 26 static
cells unchanged (first conjunct); a whole expansion over a capability
containing no byte `P` leaves them unchanged (second); `%P` with `A..Z`
stores the popped value into the static array and `%g` with `A..Z` pushes
the stored cell (third and fourth); concretely, after a first call storing
5 into static A and 7 into dynamic a, a second call on the same context
reads back 5 from A while dynamic a reads 0 (emitted as 0x80 by `%c`). -/
theorem claim_C7 :
    (∀ (cfg : Config) (b : Nat) (cfg' : Config), step cfg b = .ok cfg' →
      cfg.state ≠ .SetVar → cfg'.statics = cfg.statics) ∧
    (∀ (cap : List Nat) (cfg : Config), 80 ∉ cap → cfg.state ≠ .SetVar →
      ((run cap cfg).1).statics = cfg.statics) ∧
    (∀ (cfg : Config) (b : Nat) (v : Parameter) (s : List Parameter),
      cfg.state = .SetVar → 65 ≤ b → b ≤ 90 → cfg.stack = v :: s →
      step cfg b = .ok { cfg with state := .Nothing, stack := s,
                                  statics := cfg.statics.set (b - 65) v }) ∧
    (∀ (cfg : Config) (b : Nat), cfg.state = .GetVar → 65 ≤ b → b ≤ 90 →
      step cfg b = .ok { cfg with state := .Nothing,
                                  stack := cfg.statics.getD (b - 65) (.num 0) :: cfg.stack }) ∧
    (expandTop (strBytes "%p1%PA%p2%Pa") [.num 5, .num 7]).1 = .ok [] ∧
    (expand (expandTop (strBytes "%p1%PA%p2%Pa") [.num 5, .num 7]).2
      (strBytes "%gA%c%ga%c") []).1 = .ok [5, 128] := by
  refine ⟨?_, ?_, ?_, ?_, ?_, ?_⟩
  · intro cfg b cfg' h hst
    exact step_statics h (fun hsv => (hst hsv).elim)
  · exact run_statics_frame
  · exact step_setvar_static
  · exact step_getvar_static
  · decide
  · decide

/-- C7, witness instance: storing into static B from a concrete
configuration updates cell 1. -/
theorem claim_C7_witness :
    step ⟨.SetVar, [], [.num 3], [], [], false, List.replicate 26 (.num 0)⟩ 66 =
      .ok ⟨.Nothing, [], [], [], [], false,
           (List.replicate 26 (Parameter.num 0)).set 1 (.num 3)⟩ :=
  claim_C7.2.2.1 ⟨.SetVar, [], [.num 3], [], [], false, List.replicate 26 (.num 0)⟩
    66 (.num 3) [] rfl (by decide) (by decide) rfl

/-! ## Parser helper lemmas -/

theorem findNul_spec : ∀ (l : List Nat) (j : Nat), findNul l = some j →
    j < l.length ∧ l.getD j 1 = 0 ∧ (∀ i, i < j → l.getD i 1 ≠ 0) := by
  intro l
  induction l with
  | nil => intro j h; exact Option.noConfusion h
  | cons b rest ih =>
    intro j h
    simp only [findNul] at h
    by_cases hb : b = 0
    · simp only [hb, if_pos rfl] at h
      injection h with h2
      subst h2
      subst hb
      exact ⟨by simp, by simp, fun i hi => absurd hi (Nat.not_lt_zero i)⟩
    · simp only [if_neg hb, Option.map_eq_some'] at h
      obtain ⟨j', hj', rfl⟩ := h
      obtain ⟨h1, h2, h3⟩ := ih j' hj'
      refine ⟨by simpa using h1, by simpa using h2, ?_⟩
      intro i hi
      cases i with
      | zero => simpa using hb
      | succ i' => simpa using h3 i' (Nat.lt_of_succ_lt_succ hi)

theorem findNul_eq_none : ∀ (l : List Nat), findNul l = none ↔ 0 ∉ l := by
  intro l
  induction l with
  | nil => simp [findNul]
  | cons b rest ih =>
    simp only [findNul, List.mem_cons]
    by_cases hb : b = 0
    · simp [hb]
    · simp [hb, Option.map_eq_none', ih, Ne.symm hb]

theorem getString_cases {table : List Nat} {o : Nat} {e : ParseError}
    (h : getString table o = .error e) :
    e = .unsupportedFormat ∨ e = .unterminatedString := by
  unfold getString at h
  split at h
  · left; injection h with h2; exact h2.symm
  · case _ hlen =>
    split at h
    · case _ j hj =>
      split at h
      · exact Except.noConfusion h
      · case _ hnp =>
        exfalso
        have h1 := (findNul_spec _ _ hj).1
        have h2 : (table.drop o).length = table.length - o := List.length_drop o table
        omega
    · right; injection h with h2; exact h2.symm

theorem getString_no_panic {table : List Nat} {o : Nat} :
    getString table o ≠ .error .panic := by
  intro h
  rcases getString_cases h with h2 | h2 <;> exact ParseError.noConfusion h2

theorem readExact_err {r : Reader} {n : Nat} {e : ParseError}
    (h : readExact r n = .error e) : e = .io := by
  unfold readExact at h
  split at h
  · exact Except.noConfusion h
  · injection h with h2; exact h2.symm

theorem readU8R_err {r : Reader} {e : ParseError} (h : readU8R r = .error e) :
    e = .io := by
  unfold readU8R at h
  cases hx : readExact r 1 with
  | ok p => rw [hx] at h; exact Except.noConfusion h
  | error e' => rw [hx] at h; injection h with h2; subst h2; exact readExact_err hx

theorem readLe16R_err {r : Reader} {e : ParseError} (h : readLe16R r = .error e) :
    e = .io := by
  unfold readLe16R at h
  cases hx : readExact r 2 with
  | ok p => rw [hx] at h; exact Except.noConfusion h
  | error e' => rw [hx] at h; injection h with h2; subst h2; exact readExact_err hx

theorem readSliceR_err {r : Reader} {n : Nat} {e : ParseError}
    (h : readSliceR r n = .error e) : e = .unsupportedFormat := by
  unfold readSliceR at h
  split at h
  · exact Except.noConfusion h
  · injection h with h2; exact h2.symm

theorem readNumberR_err {sz : Nat} {r : Reader} {e : ParseError}
    (h : readNumberR sz r = .error e) : e = .io := by
  unfold readNumberR at h
  split at h
  · cases hx : readExact r 4 with
    | ok p => rw [hx] at h; exact Except.noConfusion h
    | error e' => rw [hx] at h; injection h with h2; subst h2; exact readExact_err hx
  · cases hx : readExact r 2 with
    | ok p => rw [hx] at h; exact Except.noConfusion h
    | error e' => rw [hx] at h; injection h with h2; subst h2; exact readExact_err hx

theorem readLe16L_err {l : List Nat} {e : ParseError}
    (h : readLe16L l = .error e) : e = .io := by
  unfold readLe16L at h
  split at h
  · exact Except.noConfusion h
  · injection h with h2; exact h2.symm

theorem readNumberR_pos {sz : Nat} {r : Reader} {v : Int} {r' : Reader}
    (h : readNumberR sz r = .ok (some v, r')) : 0 < v := by
  unfold readNumberR at h
  split at h
  · cases hx : readExact r 4 with
    | error e' => rw [hx] at h; exact Except.noConfusion h
    | ok p =>
      rw [hx] at h
      simp only [Except.map] at h
      injection h with h2
      split at h2
      · injection h2 with h3 h4
        injection h3 with h5
        subst h5
        assumption
      · injection h2 with h3 h4
        exact Option.noConfusion h3
  · cases hx : readExact r 2 with
    | error e' => rw [hx] at h; exact Except.noConfusion h
    | ok p =>
      rw [hx] at h
      simp only [Except.map] at h
      injection h with h2
      split at h2
      · injection h2 with h3 h4
        injection h3 with h5
        subst h5
        assumption
      · injection h2 with h3 h4
        exact Option.noConfusion h3

theorem mapInsert_pos {m : List (List Nat × Int)} {k : List Nat} {v : Int}
    (hm : ∀ p ∈ m, 0 < p.2) (hv : 0 < v) :
    ∀ p ∈ mapInsert m k v, 0 < p.2 := by
  induction m with
  | nil => intro p hp; simp only [mapInsert, List.mem_singleton] at hp; subst hp; exact hv
  | cons q m ih =>
    obtain ⟨k', v'⟩ := q
    intro p hp
    simp only [mapInsert] at hp
    split at hp
    · rcases List.mem_cons.1 hp with rfl | hmem
      · exact hv
      · exact hm p (List.mem_cons_of_mem _ hmem)
    · rcases List.mem_cons.1 hp with rfl | hmem
      · exact hm _ (List.mem_cons_self _ m)
      · exact ih (fun p2 hp2 => hm p2 (List.mem_cons_of_mem _ hp2)) p hmem

theorem readBools_spec : ∀ (names : List (List Nat)) (t : Terminfo) (r : Reader),
    (∀ t' r', readBools names t r = .ok (t', r') → t'.numbers = t.numbers) ∧
    (∀ e, readBools names t r = .error e → e ≠ .panic) := by
  intro names
  induction names with
  | nil =>
    intro t r
    constructor
    · intro t' r' h
      simp only [readBools, Except.ok.injEq, Prod.mk.injEq] at h
      rw [← h.1]
    · intro e h
      simp only [readBools] at h
      exact Except.noConfusion h
  | cons name names ih =>
    intro t r
    constructor
    · intro t' r' h
      simp only [readBools] at h
      cases hu : readU8R r with
      | error e2 =>
        simp only [hu] at h
        exact Except.noConfusion h
      | ok p =>
        obtain ⟨v, r2⟩ := p
        simp only [hu] at h
        split at h
        · have h3 := (ih _ r2).1 t' r' h
          simpa using h3
        · split at h
          · have h3 := (ih _ r2).1 t' r' h
            simpa using h3
          · exact Except.noConfusion h
    · intro e h
      simp only [readBools] at h
      cases hu : readU8R r with
      | error e2 =>
        simp only [hu] at h
        injection h with h2
        subst h2
        rw [readU8R_err hu]
        exact fun hx => ParseError.noConfusion hx
      | ok p =>
        obtain ⟨v, r2⟩ := p
        simp only [hu] at h
        split at h
        · exact (ih _ r2).2 e h
        · split at h
          · exact (ih _ r2).2 e h
          · injection h with h2
            subst h2
            exact fun hx => ParseError.noConfusion hx

theorem readNums_spec : ∀ (names : List (List Nat)) (t : Terminfo) (r : Reader),
    (∀ t' r', readNums names t r = .ok (t', r') →
      ((∀ p ∈ t.numbers, 0 < p.2) → ∀ p ∈ t'.numbers, 0 < p.2) ∧
      t'.numberSize = t.numberSize) ∧
    (∀ e, readNums names t r = .error e → e ≠ .panic) := by
  intro names
  induction names with
  | nil =>
    intro t r
    constructor
    · intro t' r' h
      simp only [readNums, Except.ok.injEq, Prod.mk.injEq] at h
      rw [← h.1]
      exact ⟨fun hi => hi, rfl⟩
    · intro e h
      simp only [readNums] at h
      exact Except.noConfusion h
  | cons name names ih =>
    intro t r
    constructor
    · intro t' r' h
      simp only [readNums] at h
      cases hn : readNumberR t.numberSize r with
      | error e2 =>
        simp only [hn] at h
        exact Except.noConfusion h
      | ok p =>
        obtain ⟨v?, r2⟩ := p
        simp only [hn] at h
        cases v? with
        | some v =>
          have hv : 0 < v := readNumberR_pos hn
          have h2 := (ih _ r2).1 t' r' h
          exact ⟨fun hi => h2.1 (mapInsert_pos hi hv), h2.2⟩
        | none => exact (ih t r2).1 t' r' h
    · intro e h
      simp only [readNums] at h
      cases hn : readNumberR t.numberSize r with
      | error e2 =>
        simp only [hn] at h
        injection h with h2
        subst h2
        rw [readNumberR_err hn]
        exact fun hx => ParseError.noConfusion hx
      | ok p =>
        obtain ⟨v?, r2⟩ := p
        simp only [hn] at h
        cases v? with
        | some v => exact (ih _ r2).2 e h
        | none => exact (ih t r2).2 e h

theorem readStringsBase_spec : ∀ (names : List (List Nat)) (offs table : List Nat)
    (t : Terminfo),
    (∀ t', readStringsBase names offs table t = .ok t' → t'.numbers = t.numbers) ∧
    (∀ e, readStringsBase names offs table t = .error e → e ≠ .panic) := by
  intro names
  induction names with
  | nil =>
    intro offs table t
    constructor
    · intro t' h
      simp only [readStringsBase, Except.ok.injEq] at h
      rw [← h]
    · intro e h
      simp only [readStringsBase] at h
      exact Except.noConfusion h
  | cons name names ih =>
    intro offs table t
    constructor
    · intro t' h
      simp only [readStringsBase] at h
      cases ho : readLe16L offs with
      | error e2 =>
        simp only [ho] at h
        exact Except.noConfusion h
      | ok p =>
        obtain ⟨off, offs'⟩ := p
        simp only [ho] at h
        split at h
        · exact (ih offs' table t).1 t' h
        · case _ o hco =>
          cases hg : getString table o with
          | error e2 =>
            simp only [hg] at h
            exact Except.noConfusion h
          | ok v =>
            simp only [hg] at h
            simpa using (ih offs' table _).1 t' h
    · intro e h
      simp only [readStringsBase] at h
      cases ho : readLe16L offs with
      | error e2 =>
        simp only [ho] at h
        injection h with h2
        subst h2
        rw [readLe16L_err ho]
        exact fun hx => ParseError.noConfusion hx
      | ok p =>
        obtain ⟨off, offs'⟩ := p
        simp only [ho] at h
        split at h
        · exact (ih offs' table t).2 e h
        · case _ o hco =>
          cases hg : getString table o with
          | error e2 =>
            simp only [hg] at h
            injection h with h2
            subst h2
            intro hx
            subst hx
            exact getString_no_panic hg
          | ok v =>
            simp only [hg] at h
            exact (ih offs' table _).2 e h

theorem getString_tame {table : List Nat} {o : Nat} {e : ParseError}
    (h : getString table o = .error e) : e ≠ .io ∧ e ≠ .panic := by
  rcases getString_cases h with h2 | h2 <;> subst h2 <;>
    exact ⟨fun hx => ParseError.noConfusion hx, fun hx => ParseError.noConfusion hx⟩

theorem extNamesBase_err (table strs : List Nat) (acc : Nat) :
    ∀ e, extNamesBase table strs acc = .error e → e ≠ .io ∧ e ≠ .panic := by
  induction strs, acc using extNamesBase.induct table with
  | case1 b0 b1 rest acc hco ih =>
    intro e h
    simp only [extNamesBase, hco] at h
    exact ih e h
  | case2 b0 b1 rest acc o hco e2 hg =>
    intro e h
    simp only [extNamesBase, hco, hg] at h
    injection h with h2
    subst h2
    exact getString_tame hg
  | case3 b0 b1 rest acc o hco v hg ih =>
    intro e h
    simp only [extNamesBase, hco, hg] at h
    exact ih e h
  | case4 l acc hne =>
    intro e h
    rcases l with _ | ⟨b0, _ | ⟨b1, rest⟩⟩
    · simp only [extNamesBase] at h
      exact Except.noConfusion h
    · simp only [extNamesBase] at h
      exact Except.noConfusion h
    · exact (hne b0 b1 rest rfl).elim

theorem extBools_spec (nt : List Nat) (bs names : List Nat) (t : Terminfo) :
    (extBools nt bs names t).1.numbers = t.numbers ∧
    (extBools nt bs names t).1.numberSize = t.numberSize ∧
    (∀ e, (extBools nt bs names t).2.2 = some e → e ≠ .io ∧ e ≠ .panic) := by
  induction bs, names, t using extBools.induct nt with
  | case1 names t =>
    refine ⟨rfl, rfl, ?_⟩
    intro e h
    simp only [extBools] at h
    exact Option.noConfusion h
  | case2 bs t c1 c2 rest' ih =>
    have heq : extBools nt (0 :: bs) (c1 :: c2 :: rest') t = extBools nt bs rest' t := by
      simp [extBools]
    rw [heq]
    exact ih
  | case3 bs t c1 c2 rest' hco h10 =>
    have heq : extBools nt (1 :: bs) (c1 :: c2 :: rest') t =
        (t, rest', some .unsupportedFormat) := by
      simp [extBools, hco]
    rw [heq]
    refine ⟨rfl, rfl, ?_⟩
    intro e h
    injection h with h2
    subst h2
    exact ⟨fun hx => ParseError.noConfusion hx, fun hx => ParseError.noConfusion hx⟩
  | case4 bs t c1 c2 rest' o hco e2 hg h10 =>
    have heq : extBools nt (1 :: bs) (c1 :: c2 :: rest') t = (t, rest', some e2) := by
      simp [extBools, hco, hg]
    rw [heq]
    refine ⟨rfl, rfl, ?_⟩
    intro e h
    injection h with h2
    subst h2
    exact getString_tame hg
  | case5 bs t c1 c2 rest' o hco v hg hu h10 ih =>
    have heq : extBools nt (1 :: bs) (c1 :: c2 :: rest') t =
        extBools nt bs rest' { t with booleans := setInsert t.booleans v } := by
      simp [extBools, hco, hg, hu]
    rw [heq]
    exact ih
  | case6 bs t c1 c2 rest' o hco v hg hu h10 =>
    have heq : extBools nt (1 :: bs) (c1 :: c2 :: rest') t = (t, rest', some .utf8) := by
      simp [extBools, hco, hg, hu]
    rw [heq]
    refine ⟨rfl, rfl, ?_⟩
    intro e h
    injection h with h2
    subst h2
    exact ⟨fun hx => ParseError.noConfusion hx, fun hx => ParseError.noConfusion hx⟩
  | case7 v bs t c1 c2 rest' h0 h1 =>
    have heq : extBools nt (v :: bs) (c1 :: c2 :: rest') t =
        (t, rest', some (.invalidBooleanValue v)) := by
      simp [extBools, h0, h1]
    rw [heq]
    refine ⟨rfl, rfl, ?_⟩
    intro e h
    injection h with h2
    subst h2
    exact ⟨fun hx => ParseError.noConfusion hx, fun hx => ParseError.noConfusion hx⟩
  | case8 v bs names t hne =>
    rcases names with _ | ⟨c1, _ | ⟨c2, rest'⟩⟩
    · have heq : extBools nt (v :: bs) [] t = (t, [], some .unsupportedFormat) := by
        simp [extBools]
      rw [heq]
      refine ⟨rfl, rfl, ?_⟩
      intro e h
      injection h with h2
      subst h2
      exact ⟨fun hx => ParseError.noConfusion hx, fun hx => ParseError.noConfusion hx⟩
    · have heq : extBools nt (v :: bs) [c1] t = (t, [c1], some .unsupportedFormat) := by
        simp [extBools]
      rw [heq]
      refine ⟨rfl, rfl, ?_⟩
      intro e h
      injection h with h2
      subst h2
      exact ⟨fun hx => ParseError.noConfusion hx, fun hx => ParseError.noConfusion hx⟩
    · exact (hne c1 c2 rest' rfl).elim

theorem extNums2_spec (nt : List Nat) (ns names : List Nat) (t : Terminfo) :
    ((∀ p ∈ t.numbers, 0 < p.2) → ∀ p ∈ (extNums2 nt ns names t).1.numbers, 0 < p.2) ∧
    (∀ e, (extNums2 nt ns names t).2.2 = some e → e ≠ .io ∧ e ≠ .panic) := by
  induction ns, names, t using extNums2.induct nt with
  | case1 b0 b1 ns t c1 c2 rest' v hv hco =>
    have hv2 : 0 < toI16 (le16 b0 b1) := hv
    have heq : extNums2 nt (b0 :: b1 :: ns) (c1 :: c2 :: rest') t =
        (t, rest', some .unsupportedFormat) := by
      simp [extNums2, hv2, hco]
    rw [heq]
    refine ⟨fun hi => hi, ?_⟩
    intro e h
    injection h with h2
    subst h2
    exact ⟨fun hx => ParseError.noConfusion hx, fun hx => ParseError.noConfusion hx⟩
  | case2 b0 b1 ns t c1 c2 rest' v hv o hco e2 hg =>
    have hv2 : 0 < toI16 (le16 b0 b1) := hv
    have heq : extNums2 nt (b0 :: b1 :: ns) (c1 :: c2 :: rest') t = (t, rest', some e2) := by
      simp [extNums2, hv2, hco, hg]
    rw [heq]
    refine ⟨fun hi => hi, ?_⟩
    intro e h
    injection h with h2
    subst h2
    exact getString_tame hg
  | case3 b0 b1 ns t c1 c2 rest' v hv o hco v2 hg hu ih =>
    have hv2 : 0 < toI16 (le16 b0 b1) := hv
    have heq : extNums2 nt (b0 :: b1 :: ns) (c1 :: c2 :: rest') t =
        extNums2 nt ns rest'
          { t with numbers := mapInsert t.numbers v2 (toI16 (le16 b0 b1)) } := by
      simp [extNums2, hv2, hco, hg, hu]
    rw [heq]
    refine ⟨?_, ih.2⟩
    intro hi
    exact ih.1 (mapInsert_pos hi hv2)
  | case4 b0 b1 ns t c1 c2 rest' v hv o hco v2 hg hu =>
    have hv2 : 0 < toI16 (le16 b0 b1) := hv
    have heq : extNums2 nt (b0 :: b1 :: ns) (c1 :: c2 :: rest') t = (t, rest', some .utf8) := by
      simp [extNums2, hv2, hco, hg, hu]
    rw [heq]
    refine ⟨fun hi => hi, ?_⟩
    intro e h
    injection h with h2
    subst h2
    exact ⟨fun hx => ParseError.noConfusion hx, fun hx => ParseError.noConfusion hx⟩
  | case5 b0 b1 ns t c1 c2 rest' v hv ih =>
    have hv2 : ¬0 < toI16 (le16 b0 b1) := hv
    have heq : extNums2 nt (b0 :: b1 :: ns) (c1 :: c2 :: rest') t = extNums2 nt ns rest' t := by
      simp [extNums2, hv2]
    rw [heq]
    exact ih
  | case6 b0 b1 ns names t hne =>
    rcases names with _ | ⟨c1, _ | ⟨c2, rest'⟩⟩
    · have heq : extNums2 nt (b0 :: b1 :: ns) [] t = (t, [], some .unsupportedFormat) := by
        simp [extNums2]
      rw [heq]
      refine ⟨fun hi => hi, ?_⟩
      intro e h
      injection h with h2
      subst h2
      exact ⟨fun hx => ParseError.noConfusion hx, fun hx => ParseError.noConfusion hx⟩
    · have heq : extNums2 nt (b0 :: b1 :: ns) [c1] t = (t, [c1], some .unsupportedFormat) := by
        simp [extNums2]
      rw [heq]
      refine ⟨fun hi => hi, ?_⟩
      intro e h
      injection h with h2
      subst h2
      exact ⟨fun hx => ParseError.noConfusion hx, fun hx => ParseError.noConfusion hx⟩
    · exact (hne c1 c2 rest' rfl).elim
  | case7 l names t hne =>
    rcases l with _ | ⟨b0, _ | ⟨b1, ns⟩⟩
    · have heq : extNums2 nt [] names t = (t, names, none) := by simp [extNums2]
      rw [heq]
      refine ⟨fun hi => hi, ?_⟩
      intro e h
      exact Option.noConfusion h
    · have heq : extNums2 nt [b0] names t = (t, names, none) := by simp [extNums2]
      rw [heq]
      refine ⟨fun hi => hi, ?_⟩
      intro e h
      exact Option.noConfusion h
    · exact (hne b0 b1 ns rfl).elim

theorem extNums4_spec (nt : List Nat) (ns names : List Nat) (t : Terminfo) :
    ((∀ p ∈ t.numbers, 0 < p.2) → ∀ p ∈ (extNums4 nt ns names t).1.numbers, 0 < p.2) ∧
    (∀ e, (extNums4 nt ns names t).2.2 = some e → e ≠ .io ∧ e ≠ .panic) := by
  induction ns, names, t using extNums4.induct nt with
  | case1 b0 b1 b2 b3 ns t c1 c2 rest' v hv hco =>
    have hv2 : 0 < toI32 (b0 + 256 * b1 + 65536 * b2 + 16777216 * b3) := hv
    have heq : extNums4 nt (b0 :: b1 :: b2 :: b3 :: ns) (c1 :: c2 :: rest') t =
        (t, rest', some .unsupportedFormat) := by
      simp [extNums4, hv2, hco]
    rw [heq]
    refine ⟨fun hi => hi, ?_⟩
    intro e h
    injection h with h2
    subst h2
    exact ⟨fun hx => ParseError.noConfusion hx, fun hx => ParseError.noConfusion hx⟩
  | case2 b0 b1 b2 b3 ns t c1 c2 rest' v hv o hco e2 hg =>
    have hv2 : 0 < toI32 (b0 + 256 * b1 + 65536 * b2 + 16777216 * b3) := hv
    have heq : extNums4 nt (b0 :: b1 :: b2 :: b3 :: ns) (c1 :: c2 :: rest') t =
        (t, rest', some e2) := by
      simp [extNums4, hv2, hco, hg]
    rw [heq]
    refine ⟨fun hi => hi, ?_⟩
    intro e h
    injection h with h2
    subst h2
    exact getString_tame hg
  | case3 b0 b1 b2 b3 ns t c1 c2 rest' v hv o hco v2 hg hu ih =>
    have hv2 : 0 < toI32 (b0 + 256 * b1 + 65536 * b2 + 16777216 * b3) := hv
    have heq : extNums4 nt (b0 :: b1 :: b2 :: b3 :: ns) (c1 :: c2 :: rest') t =
        extNums4 nt ns rest' { t with numbers := mapInsert t.numbers v2 v } := by
      simp [extNums4, hv2, hco, hg, hu]
    rw [heq]
    refine ⟨?_, ih.2⟩
    intro hi
    exact ih.1 (mapInsert_pos hi hv2)
  | case4 b0 b1 b2 b3 ns t c1 c2 rest' v hv o hco v2 hg hu =>
    have hv2 : 0 < toI32 (b0 + 256 * b1 + 65536 * b2 + 16777216 * b3) := hv
    have heq : extNums4 nt (b0 :: b1 :: b2 :: b3 :: ns) (c1 :: c2 :: rest') t =
        (t, rest', some .utf8) := by
      simp [extNums4, hv2, hco, hg, hu]
    rw [heq]
    refine ⟨fun hi => hi, ?_⟩
    intro e h
    injection h with h2
    subst h2
    exact ⟨fun hx => ParseError.noConfusion hx, fun hx => ParseError.noConfusion hx⟩
  | case5 b0 b1 b2 b3 ns t c1 c2 rest' v hv ih =>
    have hv2 : ¬0 < toI32 (b0 + 256 * b1 + 65536 * b2 + 16777216 * b3) := hv
    have heq : extNums4 nt (b0 :: b1 :: b2 :: b3 :: ns) (c1 :: c2 :: rest') t =
        extNums4 nt ns rest' t := by
      simp [extNums4, hv2]
    rw [heq]
    exact ih
  | case6 b0 b1 b2 b3 ns names t hne =>
    rcases names with _ | ⟨c1, _ | ⟨c2, rest'⟩⟩
    · have heq : extNums4 nt (b0 :: b1 :: b2 :: b3 :: ns) [] t =
          (t, [], some .unsupportedFormat) := by
        simp [extNums4]
      rw [heq]
      refine ⟨fun hi => hi, ?_⟩
      intro e h
      injection h with h2
      subst h2
      exact ⟨fun hx => ParseError.noConfusion hx, fun hx => ParseError.noConfusion hx⟩
    · have heq : extNums4 nt (b0 :: b1 :: b2 :: b3 :: ns) [c1] t =
          (t, [c1], some .unsupportedFormat) := by
        simp [extNums4]
      rw [heq]
      refine ⟨fun hi => hi, ?_⟩
      intro e h
      injection h with h2
      subst h2
      exact ⟨fun hx => ParseError.noConfusion hx, fun hx => ParseError.noConfusion hx⟩
    · exact (hne c1 c2 rest' rfl).elim
  | case7 l names t hne =>
    have heq : extNums4 nt l names t = (t, names, none) := by
      rcases l with _ | ⟨b0, _ | ⟨b1, _ | ⟨b2, _ | ⟨b3, ns⟩⟩⟩⟩
      · simp [extNums4]
      · simp [extNums4]
      · simp [extNums4]
      · simp [extNums4]
      · exact (hne b0 b1 b2 b3 ns rfl).elim
    rw [heq]
    refine ⟨fun hi => hi, ?_⟩
    intro e h
    exact Option.noConfusion h

theorem extStrs_spec (st nt : List Nat) (ss names : List Nat) (t : Terminfo) :
    ((∀ p ∈ t.numbers, 0 < p.2) → ∀ p ∈ (extStrs st nt ss names t).1.numbers, 0 < p.2) ∧
    (∀ e, (extStrs st nt ss names t).2 = some e → e ≠ .io ∧ e ≠ .panic) := by
  induction ss, names, t using extStrs.induct st nt with
  | case1 b0 b1 ns t c1 c2 rest' so no hno hso e2 hg =>
    have heq : extStrs st nt (b0 :: b1 :: ns) (c1 :: c2 :: rest') t = (t, some e2) := by
      simp [extStrs, hno, hso, hg]
    rw [heq]
    refine ⟨fun hi => hi, ?_⟩
    intro e h
    injection h with h2
    subst h2
    exact getString_tame hg
  | case2 b0 b1 ns t c1 c2 rest' so no hno hso v hg e2 hgn =>
    have heq : extStrs st nt (b0 :: b1 :: ns) (c1 :: c2 :: rest') t = (t, some e2) := by
      simp [extStrs, hno, hso, hg, hgn]
    rw [heq]
    refine ⟨fun hi => hi, ?_⟩
    intro e h
    injection h with h2
    subst h2
    exact getString_tame hgn
  | case3 b0 b1 ns t c1 c2 rest' so no hno hso v hg v1 hgn hu ih =>
    have heq : extStrs st nt (b0 :: b1 :: ns) (c1 :: c2 :: rest') t =
        extStrs st nt ns rest' { t with strings := mapInsert t.strings v1 v } := by
      simp [extStrs, hno, hso, hg, hgn, hu]
    rw [heq]
    exact ih
  | case4 b0 b1 ns t c1 c2 rest' so no hno hso v hg v1 hgn hu =>
    have heq : extStrs st nt (b0 :: b1 :: ns) (c1 :: c2 :: rest') t = (t, some .utf8) := by
      simp [extStrs, hno, hso, hg, hgn, hu]
    rw [heq]
    refine ⟨fun hi => hi, ?_⟩
    intro e h
    injection h with h2
    subst h2
    exact ⟨fun hx => ParseError.noConfusion hx, fun hx => ParseError.noConfusion hx⟩
  | case5 b0 b1 ns t c1 c2 rest' hne ih =>
    have heq : extStrs st nt (b0 :: b1 :: ns) (c1 :: c2 :: rest') t =
        extStrs st nt ns rest' t := by
      cases hso : checkOffset (le16 b0 b1) with
      | some so =>
        cases hno : checkOffset (le16 c1 c2) with
        | some no => exact (hne so no hso hno).elim
        | none => simp [extStrs, hso, hno]
      | none =>
        cases hno : checkOffset (le16 c1 c2) <;> simp [extStrs, hso, hno]
    rw [heq]
    exact ih
  | case6 b0 b1 ns names t hne =>
    rcases names with _ | ⟨c1, _ | ⟨c2, rest'⟩⟩
    · have heq : extStrs st nt (b0 :: b1 :: ns) [] t = (t, some .unsupportedFormat) := by
        simp [extStrs]
      rw [heq]
      refine ⟨fun hi => hi, ?_⟩
      intro e h
      injection h with h2
      subst h2
      exact ⟨fun hx => ParseError.noConfusion hx, fun hx => ParseError.noConfusion hx⟩
    · have heq : extStrs st nt (b0 :: b1 :: ns) [c1] t = (t, some .unsupportedFormat) := by
        simp [extStrs]
      rw [heq]
      refine ⟨fun hi => hi, ?_⟩
      intro e h
      injection h with h2
      subst h2
      exact ⟨fun hx => ParseError.noConfusion hx, fun hx => ParseError.noConfusion hx⟩
    · exact (hne c1 c2 rest' rfl).elim
  | case7 l names t hne =>
    have heq : extStrs st nt l names t = (t, none) := by
      rcases l with _ | ⟨b0, _ | ⟨b1, ns⟩⟩
      · simp [extStrs]
      · simp [extStrs]
      · exact (hne b0 b1 ns rfl).elim
    rw [heq]
    refine ⟨fun hi => hi, ?_⟩
    intro e h
    exact Option.noConfusion h

theorem extPrep_no_panic {sz : Nat} {r : Reader} {e : ParseError}
    (h : extPrep sz r = .error e) : e ≠ .panic := by
  unfold extPrep at h
  simp only [bind, Except.bind] at h
  repeat' split at h
  all_goals first
    | exact Except.noConfusion h
    | (injection h with h2; subst h2; first
        | (obtain rfl := readLe16R_err (by assumption)
           exact fun hx => ParseError.noConfusion hx)
        | (obtain rfl := readSliceR_err (by assumption)
           exact fun hx => ParseError.noConfusion hx)
        | (exact (extNamesBase_err _ _ _ _ (by assumption)).2)
        | (exact fun hx => ParseError.noConfusion hx))

theorem parseExtended_spec (t : Terminfo) (r : Reader) :
    ((∀ p ∈ t.numbers, 0 < p.2) → ∀ p ∈ (parseExtended t r).1.numbers, 0 < p.2) ∧
    (∀ e, (parseExtended t r).2 = some e → e ≠ .panic) ∧
    ((parseExtended t r).2 = some .io → (parseExtended t r).1 = t) := by
  rcases hp : extPrep t.numberSize r with e2 | ⟨bools, nums, strs, names, strTable, namesTable⟩
  · have hred : parseExtended t r = (t, some e2) := by
      unfold parseExtended
      rw [hp]
    rw [hred]
    refine ⟨fun hi => hi, ?_, fun _ => rfl⟩
    intro e h
    injection h with h2
    subst h2
    exact extPrep_no_panic hp
  · rcases hb : extBools namesTable bools names t with ⟨t1, names1, eb⟩
    have hbspec := extBools_spec namesTable bools names t
    rw [hb] at hbspec
    cases eb with
    | some e1 =>
      have hred : parseExtended t r = (t1, some e1) := by
        unfold parseExtended
        rw [hp]
        simp only [hb]
      rw [hred]
      refine ⟨?_, ?_, ?_⟩
      · intro hi p hp2
        rw [show (t1, some e1).1 = t1 from rfl] at hp2
        rw [hbspec.1] at hp2
        exact hi p hp2
      · intro e h
        injection h with h2
        subst h2
        exact (hbspec.2.2 e1 rfl).2
      · intro hio
        injection hio with h2
        exact absurd h2 (hbspec.2.2 e1 rfl).1
    | none =>
      have hnspec :
          ((∀ p ∈ t1.numbers, 0 < p.2) →
            ∀ p ∈ ((if t1.numberSize = 4 then extNums4 namesTable nums names1 t1
                    else extNums2 namesTable nums names1 t1)).1.numbers, 0 < p.2) ∧
          (∀ e, ((if t1.numberSize = 4 then extNums4 namesTable nums names1 t1
                  else extNums2 namesTable nums names1 t1)).2.2 = some e →
            e ≠ .io ∧ e ≠ .panic) := by
        split
        · exact extNums4_spec namesTable nums names1 t1
        · exact extNums2_spec namesTable nums names1 t1
      rcases hn : (if t1.numberSize = 4 then extNums4 namesTable nums names1 t1
                   else extNums2 namesTable nums names1 t1) with ⟨t2, names2, en⟩
      rw [hn] at hnspec
      cases en with
      | some e2 =>
        have hred : parseExtended t r = (t2, some e2) := by
          unfold parseExtended
          rw [hp]
          simp only [hb, hn]
        rw [hred]
        refine ⟨?_, ?_, ?_⟩
        · intro hi p hp2
          rw [show (t2, some e2).1 = t2 from rfl] at hp2
          refine hnspec.1 ?_ p hp2
          intro q hq
          rw [hbspec.1] at hq
          exact hi q hq
        · intro e h
          injection h with h2
          subst h2
          exact (hnspec.2 e2 rfl).2
        · intro hio
          injection hio with h2
          exact absurd h2 (hnspec.2 e2 rfl).1
      | none =>
        have hred : parseExtended t r = extStrs strTable namesTable strs names2 t2 := by
          unfold parseExtended
          rw [hp]
          simp only [hb, hn]
        rw [hred]
        have hsspec := extStrs_spec strTable namesTable strs names2 t2
        refine ⟨?_, ?_, ?_⟩
        · intro hi p hp2
          refine hsspec.1 ?_ p hp2
          refine hnspec.1 ?_
          intro q hq
          rw [hbspec.1] at hq
          exact hi q hq
        · intro e h
          exact fun hx => (hsspec.2 e h).2 hx
        · intro hio
          exact absurd rfl ((hsspec.2 .io hio).1)

theorem parseBase_no_panic {buffer : List Nat} {e : ParseError}
    (h : parseBase buffer = .error e) : e ≠ .panic := by
  unfold parseBase at h
  simp only [bind, Except.bind] at h
  repeat' split at h
  all_goals first
    | exact Except.noConfusion h
    | (injection h with h2; subst h2; first
        | (obtain rfl := readLe16R_err (by assumption)
           exact fun hx => ParseError.noConfusion hx)
        | (obtain rfl := readSliceR_err (by assumption)
           exact fun hx => ParseError.noConfusion hx)
        | (exact (readBools_spec _ _ _).2 _ (by assumption))
        | (exact (readNums_spec _ _ _).2 _ (by assumption))
        | (exact (readStringsBase_spec _ _ _ _).2 _ (by assumption))
        | (rename_i heq2
           (repeat' split at heq2) <;>
             first
               | exact Except.noConfusion heq2
               | (injection heq2 with h3
                  subst h3
                  exact fun hx => ParseError.noConfusion hx)))

theorem parseBase_pos {buffer : List Nat} {t : Terminfo} {r : Reader}
    (h : parseBase buffer = .ok (t, r)) : ∀ p ∈ t.numbers, 0 < p.2 := by
  unfold parseBase at h
  simp only [bind, Except.bind] at h
  repeat' split at h
  all_goals try exact Except.noConfusion h
  injection h with h2
  injection h2 with h3 h4
  subst h3
  intro p hp
  have e3 := (readStringsBase_spec _ _ _ _).1 _ (by assumption)
  rw [e3] at hp
  refine ((readNums_spec _ _ _).1 _ _ (by assumption)).1 ?_ p hp
  intro q hq
  rw [(readBools_spec _ _ _).1 _ _ (by assumption)] at hq
  simp at hq

/-! ## Claim theorems for the parser -/

/-- C3: if the base section parses and reading the extended trailer raises
an I/O error, `parse` succeeds and returns exactly the base-only entry: the
extended section has contributed no boolean, number or string. -/
theorem claim_C3 (buffer : List Nat) (t : Terminfo) (r : Reader)
    (hb : parseBase buffer = .ok (t, r))
    (hio : (parseExtended t r).2 = some .io) :
    (parseExtended t r).1 = t ∧ parse buffer = .ok t := by
  have h1 : (parseExtended t r).1 = t := (parseExtended_spec t r).2.2 hio
  refine ⟨h1, ?_⟩
  unfold parse
  simp only [hb]
  rcases hx : parseExtended t r with ⟨t', e?⟩
  rw [hx] at hio h1
  simp only at hio h1
  subst hio
  simp [h1]

set_option maxRecDepth 100000 in
/-- C3, witness instance: a buffer holding only the 12-byte base header
parses to the empty entry; its extended trailer is missing (I/O error). -/
theorem claim_C3_witness :
    (parseExtended ⟨[], [], [], 2⟩ ⟨[26, 1, 0, 0, 0, 0, 0, 0, 0, 0, 0, 0], 12⟩).1 =
      ⟨[], [], [], 2⟩ ∧
    parse [26, 1, 0, 0, 0, 0, 0, 0, 0, 0, 0, 0] = .ok ⟨[], [], [], 2⟩ :=
  claim_C3 [26, 1, 0, 0, 0, 0, 0, 0, 0, 0, 0, 0] ⟨[], [], [], 2⟩
    ⟨[26, 1, 0, 0, 0, 0, 0, 0, 0, 0, 0, 0], 12⟩ (by decide) (by decide)

set_option maxRecDepth 100000 in
/-- C8, counterexample: a base section declaring one string entry with
offset 0 into an empty string pool (offset = str_size = 0, non-sentinel)
fails with `UnterminatedString`, not `UnsupportedFormat` as the claim's
`offset ≥ str_size` boundary demands. -/
theorem claim_C8_cex :
    parse [26, 1, 0, 0, 0, 0, 0, 0, 1, 0, 0, 0, 0, 0] = .error .unterminatedString ∧
    ParseError.unterminatedString ≠ ParseError.unsupportedFormat := by
  decide

/-- C8, amended: for a base string entry with non-sentinel offset, an
offset strictly beyond the pool (`offset > str_size`) fails with
`UnsupportedFormat`; an offset at or inside the end of the pool with no
NUL at or after it fails with `UnterminatedString`; otherwise the value is
exactly the bytes from the offset up to but excluding the first NUL.  Such
a `getString` error propagates out of the string loop, and any base error
propagates out of `parse`. -/
theorem claim_C8 :
    (∀ (table : List Nat) (o : Nat), table.length < o →
      getString table o = .error .unsupportedFormat) ∧
    (∀ (table : List Nat) (o : Nat), o ≤ table.length → 0 ∉ table.drop o →
      getString table o = .error .unterminatedString) ∧
    (∀ (table : List Nat) (o j : Nat), findNul (table.drop o) = some j →
      getString table o = .ok ((table.drop o).take j) ∧
      (table.drop o).getD j 1 = 0 ∧ (∀ i, i < j → (table.drop o).getD i 1 ≠ 0)) ∧
    (∀ (name : List Nat) (names : List (List Nat)) (offs offs' table : List Nat)
      (t : Terminfo) (off o : Nat) (e : ParseError),
      readLe16L offs = .ok (off, offs') → checkOffset off = some o →
      getString table o = .error e →
      readStringsBase (name :: names) offs table t = .error e) ∧
    (∀ (buffer : List Nat) (e : ParseError), parseBase buffer = .error e →
      parse buffer = .error e) := by
  refine ⟨?_, ?_, ?_, ?_, ?_⟩
  · intro table o hlt
    simp [getString, hlt]
  · intro table o hle hnin
    have hn : findNul (table.drop o) = none := (findNul_eq_none _).2 hnin
    simp [getString, Nat.not_lt.2 hle, hn]
  · intro table o j hj
    obtain ⟨h1, h2, h3⟩ := findNul_spec _ _ hj
    have hol : ¬table.length < o := by
      intro hlt
      rw [List.drop_eq_nil_of_le (Nat.le_of_lt hlt)] at h1
      simp at h1
    have hoj : o + j ≤ table.length := by
      have hd : (table.drop o).length = table.length - o := List.length_drop o table
      omega
    refine ⟨?_, h2, h3⟩
    simp [getString, hol, hj, hoj]
  · intro name names offs offs' table t off o e hro hco hge
    simp [readStringsBase, hro, hco, hge]
  · intro buffer e h
    simp [parse, h]

/-- C8, witness instance of the first amended conjunct. -/
theorem claim_C8_witness : getString [] 1 = .error .unsupportedFormat :=
  claim_C8.1 [] 1 (by decide)

/-- C9: all values in the `numbers` map of any successful `parse` are
strictly positive; `read_number` only yields strictly positive values (so
0, −1 and −2 fields produce no entry); the base string-offset sentinels
0xFFFF and 0xFFFE are mapped to `none` by `check_offset` and the string
loop skips such an entry entirely, inserting nothing for its name. -/
theorem claim_C9 :
    (∀ (buffer : List Nat) (t : Terminfo), parse buffer = .ok t →
      ∀ p ∈ t.numbers, 0 < p.2) ∧
    (∀ (sz : Nat) (r : Reader) (v : Int) (r' : Reader),
      readNumberR sz r = .ok (some v, r') → 0 < v) ∧
    checkOffset 65535 = none ∧ checkOffset 65534 = none ∧
    (∀ (name : List Nat) (names : List (List Nat)) (b0 b1 : Nat)
      (offs table : List Nat) (t : Terminfo), checkOffset (le16 b0 b1) = none →
      readStringsBase (name :: names) (b0 :: b1 :: offs) table t =
        readStringsBase names offs table t) := by
  refine ⟨?_, ?_, by decide, by decide, ?_⟩
  · intro buffer t h
    unfold parse at h
    cases hb : parseBase buffer with
    | error e =>
      simp only [hb] at h
      exact Except.noConfusion h
    | ok p =>
      obtain ⟨t0, r0⟩ := p
      simp only [hb] at h
      have hpos := parseBase_pos hb
      have hpe := (parseExtended_spec t0 r0).1 hpos
      rcases hx : parseExtended t0 r0 with ⟨t', e?⟩
      rw [hx] at hpe
      simp only [hx] at h
      cases e? with
      | none =>
        injection h with h2
        subst h2
        exact hpe
      | some e2 =>
        cases e2 <;> simp only at h <;> first
          | exact Except.noConfusion h
          | (injection h with h2; subst h2; exact hpe)
  · intro sz r v r' h
    exact readNumberR_pos h
  · intro name names b0 b1 offs table t hco
    simp [readStringsBase, readLe16L, hco]

set_option maxRecDepth 100000 in
/-- C9, witness instance: a base section with one numeric field 80 yields
the entry `cols = 80`, and the theorem certifies its positivity. -/
theorem claim_C9_witness : (0 : Int) < ((strBytes "cols", (80 : Int)) : List Nat × Int).2 :=
  claim_C9.1 [26, 1, 0, 0, 0, 0, 1, 0, 0, 0, 0, 0, 80, 0]
    ⟨[], [(strBytes "cols", 80)], [], 2⟩ (by decide) (strBytes "cols", 80) (by decide)

/-- C10: `parse` is total and never panics — for every byte buffer it
returns `Ok` or a proper `Err`; the `panic` outcome (modelling the one
unchecked slice index in `get_string`) is unreachable. -/
theorem claim_C10 (buffer : List Nat) : parse buffer ≠ .error .panic := by
  intro h
  unfold parse at h
  cases hb : parseBase buffer with
  | error e =>
    simp only [hb] at h
    injection h with h2
    subst h2
    exact parseBase_no_panic hb rfl
  | ok p =>
    obtain ⟨t0, r0⟩ := p
    simp only [hb] at h
    rcases hx : parseExtended t0 r0 with ⟨t', e?⟩
    simp only [hx] at h
    cases e? with
    | none => exact Except.noConfusion h
    | some e2 =>
      have hne := (parseExtended_spec t0 r0).2.1 e2 (by rw [hx])
      cases e2 <;> first
        | exact hne rfl
        | exact Except.noConfusion h
        | (injection h with h2; exact ParseError.noConfusion h2)

/-- C10, witness instance. -/
theorem claim_C10_witness : parse [] ≠ .error .panic :=
  claim_C10 []

end TerminfoLib
